import Mathlib

set_option maxRecDepth 16384

/-!
Verification development for the lspsuite `.p4` reader (src/lspsuite/reader.py).

The reader is shallowly embedded: a Python binary file handle becomes a
`PFile` (an immutable byte list plus a cursor), `file.read(n)` becomes
`fread`, and every reader function becomes a pure Lean function threading
the `PFile` state.  Conventions used throughout:

* bytes are `Nat` (always < 256 in real streams; encoders only produce such);
* a big-endian 4-byte signed integer (numpy dtype >i4) decodes through
  `decode4` and `toSigned`;
* a big-endian 4-byte float (numpy dtype >f4) is modelled as its raw 32-bit
  word (`Nat`): the reader never computes with float values, it only moves
  them around, so the IEEE-754 interpretation is irrelevant to the claims;
* UTF-8 decoding of strings is modelled as the identity on the byte list
  (the reader returns the payload bytes with padding discarded);
* a Python exception becomes `Except (Err × PFile)`: the error carries the
  file state at the moment of the raise, which lets theorems speak about
  how many bytes were consumed when a reconstruction aborts.
-/

/-- Error conditions raised by the reader (Python exception kinds). -/
inductive Err where
  /-- numpy fromstring cannot fill a fixed-size read (truncated stream). -/
  | truncated : Err
  /-- xdrlib unpack error or negative string length prefix. -/
  | badString : Err
  /-- seek to a negative position (ValueError). -/
  | badSeek : Err
  /-- guard for the pass-1 scan loop of the movie reader (the source loop
      can only fail to terminate on adversarial negative particle counts). -/
  | fuelOut : Err
  /-- get_header: ValueError for a dump_type outside {2,3,6,10}. -/
  | unknownDumpType : Int → Err
  /-- get_header: NotImplementedError for a movie param count outside {7,8,11}. -/
  | notImplementedParams : Int → Err
  /-- read_flds: TypeError when the dump is not a fields/scalars file. -/
  | invalidDumpKind : Int → Err
  /-- read_flds: ValueError naming the missing quantity; the printed
      "Stored fields in this file are ..." message is modelled by the
      second component (the available set). -/
  | invalidField : List Nat → List (List Nat) → Err
  /-- numpy reshape failure in the read_flds decode path. -/
  | badReshape : Err
  /-- read_pmovie_ll: `params,_ = zip(*header['params'])` raises on an empty
      params list (not enough values to unpack). -/
  | emptyParams : Err
  /-- read_pext_ll: np.fromstring with count=-1 on a byte count that is not
      a multiple of the row width (truncated extraction record). -/
  | badPextSize : Err
deriving DecidableEq, Repr

/-- Python binary file handle: immutable contents plus a cursor. -/
structure PFile where
  data : List Nat
  pos : Nat
deriving DecidableEq, Repr

/-- Python `file.read(n)`: returns up to `n` bytes from the cursor and
advances the cursor by the number of bytes actually read. -/
def fread (n : Nat) (s : PFile) : List Nat × PFile :=
  ((s.data.drop s.pos).take n,
   { s with pos := max s.pos (min (s.pos + n) s.data.length) })

/-- Python `file.seek(k, 1)`: relative seek; a resulting negative position
raises, seeking past the end is allowed. -/
def seekRel (k : Int) (s : PFile) : Option PFile :=
  if (s.pos : Int) + k < 0 then none else some { s with pos := ((s.pos : Int) + k).toNat }

/-- Big-endian decode of a 4-byte group (numpy >i4/>f4 raw word). -/
def decode4 : List Nat → Nat
  | [a, b, c, d] => ((a * 256 + b) * 256 + c) * 256 + d
  | _ => 0

/-- Reinterpret a 32-bit word as a signed integer (two's complement). -/
def toSigned (u : Nat) : Int :=
  if u < 2147483648 then (u : Int) else (u : Int) - 4294967296

/-- Fuel-driven chunking of a byte list into groups of `k` (numpy's view of
a buffer as fixed-width records); a trailing partial group is dropped. -/
def chunkByF : Nat → Nat → List Nat → List (List Nat)
  | 0, _, _ => []
  | fuel + 1, k, b => if k = 0 ∨ b.length < k then [] else b.take k :: chunkByF fuel k (b.drop k)

/-- Chunk a byte list into groups of `k` bytes. -/
def chunkBy (k : Nat) (b : List Nat) : List (List Nat) := chunkByF b.length k b

/-- Decode a byte list as consecutive big-endian 32-bit words. -/
def decodeWords (b : List Nat) : List Nat := (chunkBy 4 b).map decode4

/-- get_int(file): one big-endian 4-byte signed integer. -/
def get_int (s : PFile) : Except (Err × PFile) (Int × PFile) :=
  let (b, s1) := fread 4 s
  if b.length = 4 then .ok (toSigned (decode4 b), s1) else .error (.truncated, s1)

/-- get_float(file, N): bulk read of `N` big-endian 4-byte floats, kept as
raw words.  A negative `N` reproduces Python semantics: `file.read`
of a negative count returns the whole remainder and numpy's negative
`count` decodes all of it (requiring a multiple of 4 bytes). -/
def get_floatN (n : Int) (s : PFile) : Except (Err × PFile) (List Nat × PFile) :=
  if n < 0 then
    let (b, s1) := fread (s.data.length - s.pos) s
    if b.length % 4 = 0 then .ok (decodeWords b, s1) else .error (.truncated, s1)
  else
    let (b, s1) := fread (4 * n.toNat) s
    if b.length = 4 * n.toNat then .ok (decodeWords b, s1) else .error (.truncated, s1)

/-- get_float(file) with the default N=1: returns the single word. -/
def get_float1 (s : PFile) : Except (Err × PFile) (Nat × PFile) :=
  match get_floatN 1 s with
  | .error e => .error e
  | .ok (ws, s1) => .ok (ws.headD 0, s1)

/-- get_int(file, N): bulk read of `N` big-endian ints (only used with N=3). -/
def get_intN (n : Nat) (s : PFile) : Except (Err × PFile) (List Int × PFile) :=
  let (b, s1) := fread (4 * n) s
  if b.length = 4 * n then .ok ((decodeWords b).map toSigned, s1) else .error (.truncated, s1)

/-- Number of payload bytes occupied by a string of length `n` (the source
computes `size = l1; if l1 % 4: size += 4 - l1 % 4`). -/
def pad4 (n : Nat) : Nat := n + (if n % 4 = 0 then 0 else 4 - n % 4)

/-- get_str(file): two 4-byte length prefixes (warn, do not abort, when they
differ and keep the first), then `pad4 l1` payload bytes of which the
first `l1` are the string.  The Bool records whether the mismatch warning
was printed. -/
def get_str (s : PFile) : Except (Err × PFile) ((List Nat × Bool) × PFile) :=
  match get_int s with
  | .error e => .error e
  | .ok (l1, s1) =>
    match get_int s1 with
    | .error e => .error e
    | .ok (l2, s2) =>
      let warned : Bool := decide (l1 ≠ l2)
      if l1 < 0 then .error (.badString, s2)
      else
        let n := l1.toNat
        let size := n + (if n % 4 = 0 then 0 else 4 - n % 4)
        let (b, s3) := fread size s2
        if size ≤ b.length then .ok ((b.take n, warned), s3) else .error (.badString, s3)

/-- Big-endian encoding of a 32-bit word (the inverse of `decode4` below
2^32); used to build the synthetic streams the theorems quantify over. -/
def encW (w : Nat) : List Nat :=
  [w / 16777216 % 256, w / 65536 % 256, w / 256 % 256, w % 256]

/-- Encode a list of 32-bit words back-to-back. -/
def encWs : List Nat → List Nat
  | [] => []
  | w :: ws => encW w ++ encWs ws

/-- Encode a string as the container does: both length prefixes equal,
payload padded with zero bytes to a multiple of 4. -/
def encStr (b : List Nat) : List Nat :=
  encW b.length ++ encW b.length ++ b ++ List.replicate (pad4 b.length - b.length) 0

/-- Word bound for values that round-trip through a 4-byte encoding. -/
def wordOk (w : Nat) : Prop := w < 4294967296

/-- Count bound: a length that decodes as a non-negative signed int. -/
def cntOk (n : Nat) : Prop := n < 2147483648

/-- String wellformedness for the encoders: the length prefix must decode
as a non-negative signed int. -/
def strOk (b : List Nat) : Prop := cntOk b.length

instance : DecidablePred wordOk := fun w => inferInstanceAs (Decidable (w < 4294967296))
instance : DecidablePred cntOk := fun n => inferInstanceAs (Decidable (n < 2147483648))
instance : DecidablePred strOk := fun b => inferInstanceAs (Decidable (cntOk b.length))

/-- Read `n` strings back to back (warnings are printed, not returned). -/
def get_strN : Nat → PFile → Except (Err × PFile) (List (List Nat) × PFile)
  | 0, s => .ok ([], s)
  | n + 1, s =>
    match get_str s with
    | .error e => .error e
    | .ok ((b, _w), s1) =>
      match get_strN n s1 with
      | .error e => .error e
      | .ok (bs, s2) => .ok (b :: bs, s2)

/-- Read `n` ints one by one and apply Python `bool` (nonzero is true):
the `[bool(get_int(file)) for i in range(n)]` comprehension. -/
def get_boolN : Nat → PFile → Except (Err × PFile) (List Bool × PFile)
  | 0, s => .ok ([], s)
  | n + 1, s =>
    match get_int s with
    | .error e => .error e
    | .ok (v, s1) =>
      match get_boolN n s1 with
      | .error e => .error e
      | .ok (bs, s2) => .ok (decide (v ≠ 0) :: bs, s2)

/-- Encode a list of strings back to back. -/
def encStrs : List (List Nat) → List Nat
  | [] => []
  | b :: bs => encStr b ++ encStrs bs

/-- Decoded `.p4` header.  The Python dict is modelled as a record carrying
every key any of the four variants can set (unset keys keep defaults).
`quantitiesIter` models the Python-3 `zip(names, units)` ITERATOR stored
by `get_header` for fields/scalars dumps: the field holds the pairs the
iterator can still yield, so a consumer that iterates it leaves `[]`. -/
structure Header where
  dump_type : Int := 0
  dversion : Int := 0
  title : List Nat := []
  revision : List Nat := []
  timestamp : Nat := 0
  geometry : Int := 0
  domains : Int := 0
  quantitiesIter : List (List Nat × List Nat) := []
  sflagsx : Int := 0
  sflagsy : Int := 0
  sflagsz : Int := 0
  params : List (List Nat × List Nat) := []
  pextQuantities : List (List Nat) := []
deriving DecidableEq, Repr

/-- Movie param vocabulary as byte strings: q,x,y,z,ux,uy,uz,E. -/
def movieLabels : List (List Nat) :=
  [[113], [120], [121], [122], [117, 120], [117, 121], [117, 122], [69]]

/-- Extra movie labels xi,yi,zi appended when the param count is 11. -/
def xiyizi : List (List Nat) := [[120, 105], [121, 105], [122, 105]]

/-- The `[(label,unit) for (label,unit,flag) in zip(labels,units,flags) if flag]`
comprehension: zip three lists (truncating to the shortest) and keep the
enabled pairs in order. -/
def paramsFilter : List (List Nat) → List (List Nat) → List Bool → List (List Nat × List Nat)
  | l :: ls, u :: us, f :: fs => (if f then [(l, u)] else []) ++ paramsFilter ls us fs
  | _, _, _ => []

/-- get_header(file): common preamble `iiss`, then dispatch on dump_type:
2|3 fields/scalars, 6 particle movie, 10 particle extraction, anything
else a ValueError. -/
def get_header (s : PFile) : Except (Err × PFile) (Header × PFile) :=
  match get_int s with
  | .error e => .error e
  | .ok (dt, s1) =>
  match get_int s1 with
  | .error e => .error e
  | .ok (dv, s2) =>
  match get_str s2 with
  | .error e => .error e
  | .ok ((title, _w1), s3) =>
  match get_str s3 with
  | .error e => .error e
  | .ok ((rev, _w2), s4) =>
  if dt = 2 ∨ dt = 3 then
    match get_float1 s4 with
    | .error e => .error e
    | .ok (ts, s5) =>
    match get_int s5 with
    | .error e => .error e
    | .ok (geo, s6) =>
    match get_int s6 with
    | .error e => .error e
    | .ok (doms, s7) =>
    match get_int s7 with
    | .error e => .error e
    | .ok (n, s8) =>
    match get_strN n.toNat s8 with
    | .error e => .error e
    | .ok (names, s9) =>
    match get_strN n.toNat s9 with
    | .error e => .error e
    | .ok (units, s10) =>
      .ok ({ dump_type := dt, dversion := dv, title := title, revision := rev,
             timestamp := ts, geometry := geo, domains := doms,
             quantitiesIter := names.zip units }, s10)
  else if dt = 6 then
    match get_int s4 with
    | .error e => .error e
    | .ok (geo, s5) =>
    match get_int s5 with
    | .error e => .error e
    | .ok (fx, s6) =>
    match get_int s6 with
    | .error e => .error e
    | .ok (fy, s7) =>
    match get_int s7 with
    | .error e => .error e
    | .ok (fz, s8) =>
    match get_int s8 with
    | .error e => .error e
    | .ok (n, s9) =>
    match get_boolN n.toNat s9 with
    | .error e => .error e
    | .ok (flags, s10) =>
    match get_strN n.toNat s10 with
    | .error e => .error e
    | .ok (units, s11) =>
    match (if n = 8 then .ok movieLabels
           else if n = 7 then .ok movieLabels.dropLast
           else if n = 11 then .ok (movieLabels ++ xiyizi)
           else .error (.notImplementedParams n, s11) :
             Except (Err × PFile) (List (List Nat))) with
    | .error e => .error e
    | .ok labels =>
      .ok ({ dump_type := dt, dversion := dv, title := title, revision := rev,
             geometry := geo, sflagsx := fx, sflagsy := fy, sflagsz := fz,
             params := paramsFilter labels units flags }, s11)
  else if dt = 10 then
    match get_int s4 with
    | .error e => .error e
    | .ok (geo, s5) =>
    match get_int s5 with
    | .error e => .error e
    | .ok (n, s6) =>
    match get_strN n.toNat s6 with
    | .error e => .error e
    | .ok (qs, s7) =>
      .ok ({ dump_type := dt, dversion := dv, title := title, revision := rev,
             geometry := geo, pextQuantities := qs }, s7)
  else .error (.unknownDumpType dt, s4)

/-- Flat structured table produced by the extraction reconstructor. -/
structure PextTable where
  cols : List String
  rows : List (List Nat)
deriving DecidableEq, Repr

/-- Column schema computed by read_pext_ll from the quantity count
(the source mutates `params` through an if/elif chain with no else). -/
def pextParams (n : Nat) : List String :=
  let base := ["t", "q", "x", "y", "z", "ux", "uy", "uz"]
  if n = 9 then base ++ ["E"]
  else if n = 11 then base ++ ["xi", "yi", "zi"]
  else if n = 12 then base ++ ["E", "xi", "yi", "zi"]
  else base

/-- read_pext_ll(file, header): decode the whole remaining stream as
fixed-width rows of one big-endian float per column. -/
def read_pext_ll (header : Header) (s : PFile) : Except (Err × PFile) (PextTable × PFile) :=
  let params := pextParams header.pextQuantities.length
  let (b, s1) := fread (s.data.length - s.pos) s
  let itemsize := 4 * params.length
  if b.length % itemsize = 0 then
    .ok ({ cols := params, rows := (chunkBy itemsize b).map decodeWords }, s1)
  else .error (.badPextSize, s1)

/-- Schema selection as the amended claim states it: counts 9, 11 and 12
extend the base columns; every other count (8 included) yields the base
columns, with no failure branch.  Stated independently of the embedding
for comparison with the code's `pextParams`. -/
def pextSchemaSpec (n : Nat) : List String :=
  if n = 9 then ["t", "q", "x", "y", "z", "ux", "uy", "uz", "E"]
  else if n = 11 then ["t", "q", "x", "y", "z", "ux", "uy", "uz", "xi", "yi", "zi"]
  else if n = 12 then ["t", "q", "x", "y", "z", "ux", "uy", "uz", "E", "xi", "yi", "zi"]
  else ["t", "q", "x", "y", "z", "ux", "uy", "uz"]

/-- Extraction header declaring 10 quantities (outside {8,9,11,12}). -/
def hdrPext10 : Header := { pextQuantities := List.replicate 10 [] }

/-- Extraction header declaring 9 quantities. -/
def hdrPext9 : Header := { pextQuantities := List.replicate 9 [] }

/-- Extraction header declaring 8 quantities. -/
def hdrPext8 : Header := { pextQuantities := List.replicate 8 [] }

/-- Domain record of read_flds: grid coordinate vectors plus the decoded
quantity entries, one entry per materialized array (scalar name, or the
vector name suffixed with x/y/z = bytes 120/121/122).  Each entry keeps
its flattened word data; the (nK,nJ,nI) reshape is shape metadata
recoverable from the grid vector lengths and loses no data. -/
structure Dom where
  xgv : List Nat
  ygv : List Nat
  zgv : List Nat
  entries : List (List Nat × List Nat)
deriving DecidableEq, Repr

/-- Channel `c` of the `fld_raw.reshape(nAll, size).T` transpose: every
`size`-th word starting at offset `c`. -/
def chan (size c : Nat) (xs : List Nat) : List Nat :=
  (chunkBy size xs).map (fun g => g.getD c 0)

/-- Python truthiness of the optional `flds` argument of read_flds:
`if not flds` is true for both None and the empty list. -/
def pyFalsy : Option (List (List Nat)) → Bool
  | none => true
  | some [] => true
  | some (_ :: _) => false

/-- Per-domain quantity loop of read_flds: for each declared quantity, in
declared order, skip-seek if it was not requested, else bulk-decode
`nAll*size` floats and split them into `size` channels.  The reshape
guard models numpy: `reshape(nAll, size)` succeeds iff the element count
matches (or nAll = -1 is inferred). -/
def quantLoop (fl : List (List Nat)) (size : Nat) (nAll : Int) :
    List (List Nat) → PFile → Except (Err × PFile) (List (List Nat × List Nat) × PFile)
  | [], s => .ok ([], s)
  | q :: qs, s =>
    if q ∉ fl then
      match seekRel (nAll * 4 * size) s with
      | none => .error (.badSeek, s)
      | some s1 => quantLoop fl size nAll qs s1
    else
      match get_floatN (nAll * size) s with
      | .error e => .error e
      | .ok (raw, s1) =>
        if (nAll * (size : Int) = (raw.length : Int)) ∨
            (nAll = -1 ∧ (size : Int) ∣ (raw.length : Int)) then
          match quantLoop fl size nAll qs s1 with
          | .error e => .error e
          | .ok (es, s2) =>
            .ok ((if size = 1 then [(q, raw)]
                  else [(q ++ [120], chan size 0 raw), (q ++ [121], chan size 1 raw),
                        (q ++ [122], chan size 2 raw)]) ++ es, s2)
        else .error (.badReshape, s1)

/-- Domain loop of read_flds: three region indices, the three grid vectors,
then the quantity loop, repeated for the declared number of domains. -/
def domLoop (fl : List (List Nat)) (size : Nat) (qs : List (List Nat)) :
    Nat → PFile → Except (Err × PFile) (List Dom × PFile)
  | 0, s => .ok ([], s)
  | m + 1, s =>
    match get_intN 3 s with
    | .error e => .error e
    | .ok (_ijk, s1) =>
    match get_int s1 with
    | .error e => .error e
    | .ok (nI, s2) =>
    match get_floatN nI s2 with
    | .error e => .error e
    | .ok (xg, s3) =>
    match get_int s3 with
    | .error e => .error e
    | .ok (nJ, s4) =>
    match get_floatN nJ s4 with
    | .error e => .error e
    | .ok (yg, s5) =>
    match get_int s5 with
    | .error e => .error e
    | .ok (nK, s6) =>
    match get_floatN nK s6 with
    | .error e => .error e
    | .ok (zg, s7) =>
    match quantLoop fl size (nI * nJ * nK) qs s7 with
    | .error e => .error e
    | .ok (es, s8) =>
    match domLoop fl size qs m s8 with
    | .error e => .error e
    | .ok (ds, s9) => .ok ({ xgv := xg, ygv := yg, zgv := zg, entries := es } :: ds, s9)

/-- read_flds(fname, flds): header, dump-kind check (TypeError unless 2/3),
consume the quantities zip iterator to get the name list, validate the
request (ValueError naming the first missing quantity and printing the
available set), then the domain loop. -/
def read_flds (s : PFile) (flds : Option (List (List Nat))) :
    Except (Err × PFile) (List Dom × Header × PFile) :=
  match get_header s with
  | .error e => .error e
  | .ok (header, s1) =>
    match (if header.dump_type = 2 then some 3
           else if header.dump_type = 3 then some 1 else none : Option Nat) with
    | none => .error (.invalidDumpKind header.dump_type, s1)
    | some size =>
      let qs := header.quantitiesIter.map Prod.fst
      let header1 := { header with quantitiesIter := [] }
      match (if pyFalsy flds then .ok qs
             else
               match (flds.getD []).find? (fun f => !(qs.contains f)) with
               | some missing => .error (.invalidField missing qs, s1)
               | none => .ok (flds.getD []) :
               Except (Err × PFile) (List (List Nat))) with
      | .error e => .error e
      | .ok fl =>
        match domLoop fl size qs header1.domains.toNat s1 with
        | .error e => .error e
        | .ok (doms, s2) => .ok (doms, header1, s2)

/-- Pass-1 index entry of the movie reader: frame metadata plus the
recorded payload start position. -/
structure PIdx where
  t : Nat
  step : Int
  pnum : Int
  pos : Nat
deriving DecidableEq, Repr

/-- Final movie frame: metadata plus the structured per-particle table
(int32 particle id, then one float word per enabled param). -/
structure MFrame where
  t : Nat
  step : Int
  pnum : Int
  rows : List (Int × List Nat)
deriving DecidableEq, Repr

/-- iseof(file): probe one byte; the cursor is restored (or never moved),
so only the Boolean outcome matters. -/
def iseof (s : PFile) : Bool := s.data.length ≤ s.pos

/-- Parse one movie row: int32 particle id then one float word per param. -/
def parseRow (chunk : List Nat) : Int × List Nat :=
  (toSigned (decode4 (chunk.take 4)), decodeWords (chunk.drop 4))

/-- Pass 1 of read_pmovie_ll: until end-of-stream, decode (t, step, pnum),
record the payload start, and seek past pnum rows.  Fuel bounds the
iteration count (the source loop can only defy it by seeking backwards
on adversarial negative particle counts). -/
def pass1 (pbytes : Nat) : Nat → PFile → Except (Err × PFile) (List PIdx × PFile)
  | 0, s => .error (.fuelOut, s)
  | fuel + 1, s =>
    if iseof s then .ok ([], s)
    else
      match get_float1 s with
      | .error e => .error e
      | .ok (t, s1) =>
      match get_int s1 with
      | .error e => .error e
      | .ok (step, s2) =>
      match get_int s2 with
      | .error e => .error e
      | .ok (pnum, s3) =>
      match seekRel (pnum * (pbytes : Int)) s3 with
      | none => .error (.badSeek, s3)
      | some s4 =>
        match pass1 pbytes fuel s4 with
        | .error e => .error e
        | .ok (rest, s5) =>
          .ok ({ t := t, step := step, pnum := pnum, pos := s3.pos } :: rest, s5)

/-- Pass 2 of read_pmovie_ll: seek to each recorded payload start and bulk
decode pnum fixed-width rows (np.frombuffer with count = pnum; a negative
count means "all of the buffer", mirroring numpy). -/
def pass2 (nparams : Nat) : List PIdx → PFile → Except (Err × PFile) (List MFrame × PFile)
  | [], s => .ok ([], s)
  | f :: fs, s =>
    let rowBytes := 4 * (1 + nparams)
    let s1 : PFile := { s with pos := f.pos }
    if f.pnum < 0 then
      let (b, s2) := fread (s1.data.length - s1.pos) s1
      if b.length % rowBytes = 0 then
        match pass2 nparams fs s2 with
        | .error e => .error e
        | .ok (ms, s3) =>
          .ok ({ t := f.t, step := f.step, pnum := f.pnum,
                 rows := (chunkBy rowBytes b).map parseRow } :: ms, s3)
      else .error (.truncated, s2)
    else
      let (b, s2) := fread (f.pnum.toNat * rowBytes) s1
      if f.pnum.toNat * rowBytes ≤ b.length then
        match pass2 nparams fs s2 with
        | .error e => .error e
        | .ok (ms, s3) =>
          .ok ({ t := f.t, step := f.step, pnum := f.pnum,
                 rows := ((chunkBy rowBytes b).take f.pnum.toNat).map parseRow } :: ms, s3)
      else .error (.truncated, s2)

/-- read_pmovie_ll(file, header): unzip the params (raising on an empty
list, as `params,_ = zip(*header['params'])` does), then the two passes. -/
def read_pmovie_ll (header : Header) (s : PFile) :
    Except (Err × PFile) (List MFrame × PFile) :=
  match header.params with
  | [] => .error (.emptyParams, s)
  | _ :: _ =>
    let nparams := header.params.length
    let pbytes := (nparams + 1) * 4
    match pass1 pbytes (s.data.length + 1) s with
    | .error e => .error e
    | .ok (idx, s1) => pass2 nparams idx s1

/-- Declared quantity of a fields/scalars dump. -/
structure QSpec where
  name : List Nat
  unit : List Nat
deriving DecidableEq, Repr

/-- Synthetic domain payload used to build well-formed field streams. -/
structure DomSpec where
  iR : Nat
  jR : Nat
  kR : Nat
  xgv : List Nat
  ygv : List Nat
  zgv : List Nat
  qdata : List (List Nat)
deriving DecidableEq, Repr

/-- Synthetic fields/scalars dump used to build well-formed streams. -/
structure FldsSpec where
  dumpType : Nat
  dversion : Nat
  title : List Nat
  revision : List Nat
  timestamp : Nat
  geometry : Nat
  quants : List QSpec
  doms : List DomSpec
deriving DecidableEq, Repr

/-- Component count: 3 for a field dump (type 2), 1 for a scalar dump. -/
def FldsSpec.size (F : FldsSpec) : Nat := if F.dumpType = 2 then 3 else 1

/-- Wellformedness of a synthetic domain for component count `size` and
`q` declared quantities: every word fits 32 bits, the grid vector
lengths decode as non-negative counts, and each quantity payload holds
exactly nI*nJ*nK*size words. -/
def DomSpec.WF (size q : Nat) (d : DomSpec) : Prop :=
  wordOk d.iR ∧ wordOk d.jR ∧ wordOk d.kR ∧
  cntOk d.xgv.length ∧ cntOk d.ygv.length ∧ cntOk d.zgv.length ∧
  (∀ w ∈ d.xgv, wordOk w) ∧ (∀ w ∈ d.ygv, wordOk w) ∧ (∀ w ∈ d.zgv, wordOk w) ∧
  d.qdata.length = q ∧
  (∀ p ∈ d.qdata,
    p.length = d.xgv.length * d.ygv.length * d.zgv.length * size ∧ ∀ w ∈ p, wordOk w)

/-- Wellformedness of a synthetic fields/scalars dump. -/
def FldsSpec.WF (F : FldsSpec) : Prop :=
  (F.dumpType = 2 ∨ F.dumpType = 3) ∧ cntOk F.dversion ∧
  strOk F.title ∧ strOk F.revision ∧ wordOk F.timestamp ∧ cntOk F.geometry ∧
  cntOk F.doms.length ∧ cntOk F.quants.length ∧
  (∀ q ∈ F.quants, strOk q.name ∧ strOk q.unit) ∧
  (∀ d ∈ F.doms, DomSpec.WF F.size F.quants.length d)

/-- Encode the quantity payloads of one domain back to back. -/
def encPayloads : List (List Nat) → List Nat
  | [] => []
  | p :: ps => encWs p ++ encPayloads ps

/-- Encode one domain: region indices, the three counted grid vectors,
then one payload block per declared quantity. -/
def encodeDom (d : DomSpec) : List Nat :=
  encW d.iR ++ encW d.jR ++ encW d.kR ++
  encW d.xgv.length ++ encWs d.xgv ++
  encW d.ygv.length ++ encWs d.ygv ++
  encW d.zgv.length ++ encWs d.zgv ++
  encPayloads d.qdata

/-- Encode a list of domains back to back. -/
def encodeDoms : List DomSpec → List Nat
  | [] => []
  | d :: ds => encodeDom d ++ encodeDoms ds

/-- Encode the header of a fields/scalars dump. -/
def encodeFldsHeader (F : FldsSpec) : List Nat :=
  encW F.dumpType ++ encW F.dversion ++ encStr F.title ++ encStr F.revision ++
  encW F.timestamp ++ encW F.geometry ++ encW F.doms.length ++ encW F.quants.length ++
  encStrs (F.quants.map QSpec.name) ++ encStrs (F.quants.map QSpec.unit)

/-- Encode a whole fields/scalars dump. -/
def encodeFlds (F : FldsSpec) : List Nat := encodeFldsHeader F ++ encodeDoms F.doms

/-- Header value get_header decodes from `encodeFlds F` (for wellformed F). -/
def FldsSpec.toHeader (F : FldsSpec) : Header :=
  { dump_type := (F.dumpType : Int), dversion := (F.dversion : Int),
    title := F.title, revision := F.revision, timestamp := F.timestamp,
    geometry := (F.geometry : Int), domains := (F.doms.length : Int),
    quantitiesIter := (F.quants.map QSpec.name).zip (F.quants.map QSpec.unit) }

/-- Validity of a read_flds request against the declared quantity names. -/
def ReqValid : Option (List (List Nat)) → FldsSpec → Prop
  | none, _ => True
  | some l, F => ∀ x ∈ l, x ∈ F.quants.map QSpec.name

instance (fl : Option (List (List Nat))) (F : FldsSpec) : Decidable (ReqValid fl F) :=
  match fl with
  | none => isTrue trivial
  | some l => inferInstanceAs (Decidable (∀ x ∈ l, x ∈ F.quants.map QSpec.name))

/-- Synthetic movie frame: the three header words plus the raw payload. -/
structure FrameSpec where
  t : Nat
  step : Nat
  pnum : Nat
  payload : List Nat
deriving DecidableEq, Repr

/-- Frame wellformedness for row width `pbytes`: words fit, the particle
count decodes as non-negative, and the payload holds exactly
pnum * pbytes bytes. -/
def FrameSpec.WF (pbytes : Nat) (f : FrameSpec) : Prop :=
  wordOk f.t ∧ wordOk f.step ∧ cntOk f.pnum ∧ f.payload.length = f.pnum * pbytes

/-- Encode one movie frame: (t, step, pnum) then the payload. -/
def encFrame (f : FrameSpec) : List Nat := encW f.t ++ encW f.step ++ encW f.pnum ++ f.payload

/-- Encode a list of movie frames back to back. -/
def encFrames : List FrameSpec → List Nat
  | [] => []
  | f :: fs => encFrame f ++ encFrames fs

/-- Index produced by pass 1 starting at position `p`: each entry records
the decoded metadata and the payload start just after the 12 header
bytes of its frame. -/
def mkIndex : Nat → List FrameSpec → List PIdx
  | _, [] => []
  | p, f :: fs =>
    { t := f.t, step := toSigned f.step, pnum := toSigned f.pnum, pos := p + 12 } ::
      mkIndex (p + 12 + f.payload.length) fs

/-- Frame record read_pmovie_ll reconstructs from a synthetic frame. -/
def expectedFrame (nparams : Nat) (f : FrameSpec) : MFrame :=
  { t := f.t, step := toSigned f.step, pnum := toSigned f.pnum,
    rows := (chunkBy (4 * (1 + nparams)) f.payload).map parseRow }

/-- Synthetic movie header (dump_type 6) for the header-decoder claims. -/
structure MovSpec where
  dversion : Nat
  title : List Nat
  revision : List Nat
  geometry : Nat
  sflagsx : Nat
  sflagsy : Nat
  sflagsz : Nat
  flags : List Nat
  units : List (List Nat)
deriving DecidableEq, Repr

/-- Wellformedness of a synthetic movie header. -/
def MovSpec.WF (M : MovSpec) : Prop :=
  cntOk M.dversion ∧ strOk M.title ∧ strOk M.revision ∧
  cntOk M.geometry ∧ cntOk M.sflagsx ∧ cntOk M.sflagsy ∧ cntOk M.sflagsz ∧
  cntOk M.flags.length ∧ (∀ w ∈ M.flags, wordOk w) ∧
  M.units.length = M.flags.length ∧ (∀ u ∈ M.units, strOk u)

/-- Encode a movie header: common preamble with dump_type 6, geometry and
the three scaling flags, the param count, the enable flags, the units. -/
def encodeMov (M : MovSpec) : List Nat :=
  encW 6 ++ encW M.dversion ++ encStr M.title ++ encStr M.revision ++
  encW M.geometry ++ encW M.sflagsx ++ encW M.sflagsy ++ encW M.sflagsz ++
  encW M.flags.length ++ encWs M.flags ++ encStrs M.units

/-- Tiny fields dump for the iterator-exhaustion bug theorem: dump_type 2,
one declared quantity (name "Q" = byte 81, unit "u" = byte 117), zero
domains. -/
def fldsC4 : FldsSpec :=
  { dumpType := 2, dversion := 1, title := [], revision := [], timestamp := 0,
    geometry := 0, quants := [{ name := [81], unit := [117] }], doms := [] }


/-- Concrete movie header for the C2 witness: three enabled params. -/
def movHdrW : Header := { dump_type := 6, params := [([113], []), ([120], []), ([121], [])] }

/-- Concrete frames for the C2 witness: particle counts 0, 2 and 5 with
row width 16 bytes (1 + 3 params). -/
def movFramesW : List FrameSpec :=
  [{ t := 1, step := 1, pnum := 0, payload := [] },
   { t := 2, step := 2, pnum := 2, payload := List.replicate 32 7 },
   { t := 3, step := 3, pnum := 5, payload := List.replicate 80 9 }]


instance (pbytes : Nat) (f : FrameSpec) : Decidable (FrameSpec.WF pbytes f) :=
  inferInstanceAs (Decidable
    (wordOk f.t ∧ wordOk f.step ∧ cntOk f.pnum ∧ f.payload.length = f.pnum * pbytes))

instance (size q : Nat) (d : DomSpec) : Decidable (DomSpec.WF size q d) :=
  inferInstanceAs (Decidable
    (wordOk d.iR ∧ wordOk d.jR ∧ wordOk d.kR ∧
     cntOk d.xgv.length ∧ cntOk d.ygv.length ∧ cntOk d.zgv.length ∧
     (∀ w ∈ d.xgv, wordOk w) ∧ (∀ w ∈ d.ygv, wordOk w) ∧ (∀ w ∈ d.zgv, wordOk w) ∧
     d.qdata.length = q ∧
     (∀ p ∈ d.qdata,
       p.length = d.xgv.length * d.ygv.length * d.zgv.length * size ∧ ∀ w ∈ p, wordOk w)))

instance (F : FldsSpec) : Decidable (FldsSpec.WF F) :=
  inferInstanceAs (Decidable
    ((F.dumpType = 2 ∨ F.dumpType = 3) ∧ cntOk F.dversion ∧
     strOk F.title ∧ strOk F.revision ∧ wordOk F.timestamp ∧ cntOk F.geometry ∧
     cntOk F.doms.length ∧ cntOk F.quants.length ∧
     (∀ q ∈ F.quants, strOk q.name ∧ strOk q.unit) ∧
     (∀ d ∈ F.doms, DomSpec.WF F.size F.quants.length d)))

instance (M : MovSpec) : Decidable (MovSpec.WF M) :=
  inferInstanceAs (Decidable
    (cntOk M.dversion ∧ strOk M.title ∧ strOk M.revision ∧
     cntOk M.geometry ∧ cntOk M.sflagsx ∧ cntOk M.sflagsy ∧ cntOk M.sflagsz ∧
     cntOk M.flags.length ∧ (∀ w ∈ M.flags, wordOk w) ∧
     M.units.length = M.flags.length ∧ (∀ u ∈ M.units, strOk u)))


/-- Enabled (label, unit) pairs in vocabulary order, written with library
zip/filterMap for comparison with the decoder's comprehension. -/
def enabledParams (labels units : List (List Nat)) (flags : List Nat) :
    List (List Nat × List Nat) :=
  ((labels.zip units).zip (flags.map (fun w => decide (w ≠ 0)))).filterMap
    (fun p => if p.2 then some p.1 else none)


/-- Cursor position after decoding an encoded movie header. -/
def movEndPos (M : MovSpec) : Nat :=
  0 + 4 + 4 + (8 + pad4 M.title.length) + (8 + pad4 M.revision.length) + 4 + 4 + 4 + 4 + 4 +
  4 * M.flags.length + (encStrs M.units).length


/-- Movie header witness with 8 params, flags enabling q,x,y and E. -/
def movM8 : MovSpec :=
  { dversion := 0, title := [], revision := [], geometry := 0,
    sflagsx := 0, sflagsy := 0, sflagsz := 0,
    flags := [1, 0, 1, 1, 0, 0, 0, 1],
    units := [[97], [98], [99], [100], [101], [102], [103], [104]] }

/-- Movie header witness with 9 params (outside {7,8,11}). -/
def movM9 : MovSpec :=
  { dversion := 0, title := [], revision := [], geometry := 0,
    sflagsx := 0, sflagsy := 0, sflagsz := 0,
    flags := List.replicate 9 1,
    units := List.replicate 9 [97] }


/-- Cursor position after decoding an encoded fields/scalars header. -/
def fldsHdrEnd (F : FldsSpec) : Nat :=
  0 + 4 + 4 + (8 + pad4 F.title.length) + (8 + pad4 F.revision.length) + 4 + 4 + 4 + 4 +
  (encStrs (F.quants.map QSpec.name)).length + (encStrs (F.quants.map QSpec.unit)).length


/-- Fields dump witness: dump_type 2 (vector fields), two quantities
"Q" and "B", one domain with a 1 x 2 x 1 grid (nAll = 2, so each
quantity payload is nAll*3 = 6 words). -/
def fldsW : FldsSpec :=
  { dumpType := 2, dversion := 1, title := [84], revision := [82], timestamp := 5,
    geometry := 1,
    quants := [{ name := [81], unit := [117] }, { name := [66], unit := [117] }],
    doms := [{ iR := 0, jR := 0, kR := 0,
               xgv := [1], ygv := [2, 3], zgv := [4],
               qdata := [List.replicate 6 1, List.replicate 6 2] }] }


/-- Value stored in a text-sidecar dictionary: int, string (float values of
the sidecar files are modelled by their literal trimmed token, since the
aliasing claims do not depend on numeric interpretation), or a mutable
float array (np.zeros / per-index assignment). -/
inductive GVal where
  | i : Int → GVal
  | s : String → GVal
  | arr : List String → GVal
deriving DecidableEq, Repr

/-- Python OrderedDict: insertion-ordered association list; assignment
replaces the value in place when the key exists, else appends. -/
abbrev PyDict := List (String × GVal)

/-- Dict item assignment. -/
def dictSet : PyDict → String → GVal → PyDict
  | [], k, v => [(k, v)]
  | (k1, v1) :: t, k, v => if k1 = k then (k, v) :: t else (k1, v1) :: dictSet t k v

/-- Dict item lookup (total; missing keys never occur in the readers). -/
def dictGet : PyDict → String → GVal
  | [], _ => .i 0
  | (k1, v1) :: t, k => if k1 = k then v1 else dictGet t k

/-- Heap-and-references model of a Python list of dicts: `heap` holds the
distinct dict objects, `slots` holds one object index per list slot. -/
structure Alloc where
  heap : List PyDict
  slots : List Nat
deriving DecidableEq, Repr

/-- The source pattern `[OrderedDict()]*n`: ONE empty dict object on the
heap and `n` list slots all referencing it. -/
def allocShared (n : Nat) : Alloc := { heap := [[]], slots := List.replicate n 0 }

/-- `lst[i][k] = v`: write through slot `i` into the referenced object. -/
def writeSlot (a : Alloc) (i : Nat) (k : String) (v : GVal) : Alloc :=
  { a with heap := a.heap.set (a.slots.getD i 0) (dictSet (a.heap.getD (a.slots.getD i 0) []) k v) }

/-- `lst[i][k]` read through slot `i`. -/
def readSlot (a : Alloc) (i : Nat) (k : String) : GVal :=
  dictGet (a.heap.getD (a.slots.getD i 0) []) k

/-- Array stored under a key (np.zeros value of a gv key). -/
def getArr (d : PyDict) (k : String) : List String :=
  match dictGet d k with
  | .arr v => v
  | _ => []

/-- `f.readline()`: pop the next line ("" at EOF). -/
def pyReadline : List String → String × List String
  | [] => ("", [])
  | x :: xs => (x, xs)

/-- Whitespace (Python str.strip / split default set, restricted to the
characters that occur in these files). -/
def isSpace (c : Char) : Bool := c == ' ' || c == '\t' || c == '\n' || c == '\r'

/-- strip() on a character list: drop leading and trailing whitespace. -/
def pyStripL (l : List Char) : List Char :=
  ((l.dropWhile isSpace).reverse.dropWhile isSpace).reverse

/-- line.strip(). -/
def pyStrip (s : String) : String := String.mk (pyStripL s.data)

/-- Whitespace tokenizer (np.fromstring sep=" " token scan). -/
def toksAux : List Char → List Char → List String
  | acc, [] => if acc.isEmpty then [] else [String.mk acc.reverse]
  | acc, c :: cs =>
    if isSpace c then
      if acc.isEmpty then toksAux [] cs else String.mk acc.reverse :: toksAux [] cs
    else toksAux (c :: acc) cs

/-- Decimal digit accumulator for int(). -/
def natAux : Nat → List Char → Option Nat
  | n, [] => some n
  | n, c :: cs => if c.isDigit then natAux (n * 10 + (c.toNat - 48)) cs else none

/-- Python int(str): optional sign then decimal digits, whitespace ignored. -/
def pyToInt (s : String) : Option Int :=
  match pyStripL s.data with
  | [] => none
  | c :: cs =>
    if c == '-' then
      match cs with
      | [] => none
      | _ => (natAux 0 cs).map (fun n => -(n : Int))
    else if c == '+' then
      match cs with
      | [] => none
      | _ => (natAux 0 cs).map (fun n => (n : Int))
    else (natAux 0 (c :: cs)).map (fun n => (n : Int))

/-- `int(line.strip())`. -/
def pyInt (x : String) : Option Int := pyToInt x

/-- Whitespace-separated tokens of a stripped line (np.fromstring sep=" "). -/
def lineToks (x : String) : List String := toksAux [] x.data

/-- np.fromstring(line, dtype=int, sep=" ", count=n): first n tokens as
ints; fewer tokens or an unparsable token is an error. -/
def intsOf (x : String) (n : Nat) : Option (List Int) :=
  if n ≤ (lineToks x).length then ((lineToks x).take n).mapM pyToInt else none

/-- np.fromstring(line, dtype=float, sep=" ", count=n): first n tokens,
kept as their token strings. -/
def strsOf (x : String) (n : Nat) : Option (List String) :=
  if n ≤ (lineToks x).length then some ((lineToks x).take n) else none

/-- Result of read_regions. -/
structure RegionsOut where
  title : String
  geometry : Int
  dimension : Int
  nregions : Int
  alloc : Alloc
deriving DecidableEq, Repr

/-- Region record body: the two lines of one region, writing
nI,nJ,nK then xmin,xmax,ymin,ymax,zmin,zmax through slot `i`. -/
def regBody (a : Alloc) (i : Nat) (ls : List String) : Option (Alloc × List String) :=
  let (l1, ls1) := pyReadline ls
  match intsOf l1 3 with
  | some [nI, nJ, nK] =>
    let a1 := writeSlot a i "nI" (.i nI)
    let a2 := writeSlot a1 i "nJ" (.i nJ)
    let a3 := writeSlot a2 i "nK" (.i nK)
    let (l2, ls2) := pyReadline ls1
    match strsOf l2 6 with
    | some [x0, x1, y0, y1, z0, z1] =>
      let a4 := writeSlot a3 i "xmin" (.s x0)
      let a5 := writeSlot a4 i "xmax" (.s x1)
      let a6 := writeSlot a5 i "ymin" (.s y0)
      let a7 := writeSlot a6 i "ymax" (.s y1)
      let a8 := writeSlot a7 i "zmin" (.s z0)
      let a9 := writeSlot a8 i "zmax" (.s z1)
      some (a9, ls2)
    | _ => none
  | _ => none

/-- `for i in range(n)` loop of read_regions. -/
def regLoop : Alloc → Nat → Nat → List String → Option (Alloc × List String)
  | a, _, 0, ls => some (a, ls)
  | a, i, m + 1, ls =>
    match regBody a i ls with
    | none => none
    | some (a1, ls1) => regLoop a1 (i + 1) m ls1

/-- read_regions(fname) over the file's lines. -/
def read_regions (ls : List String) : Option RegionsOut :=
  let (l1, ls1) := pyReadline ls
  let title := pyStrip l1
  let (l2, ls2) := pyReadline ls1
  match pyInt l2 with
  | none => none
  | some geo =>
  let (l3, ls3) := pyReadline ls2
  match pyInt l3 with
  | none => none
  | some dim =>
  let (l4, ls4) := pyReadline ls3
  match pyInt l4 with
  | none => none
  | some nreg =>
  match regLoop (allocShared nreg.toNat) 0 nreg.toNat ls4 with
  | none => none
  | some (a, _) =>
    some { title := title, geometry := geo, dimension := dim, nregions := nreg, alloc := a }

/-- Result of read_volumes. -/
structure VolumesOut where
  title : String
  nvolumes : Int
  alloc : Alloc
deriving DecidableEq, Repr

/-- Volume record body: one line parsed twice (7 floats, first discarded;
then 1 int for the type), writing x0,x1,y0,y1,z0,z1 then type. -/
def volBody (a : Alloc) (i : Nat) (ls : List String) : Option (Alloc × List String) :=
  let (l1, ls1) := pyReadline ls
  match strsOf l1 7 with
  | some [_t0, x0, x1, y0, y1, z0, z1] =>
    let a1 := writeSlot a i "x0" (.s x0)
    let a2 := writeSlot a1 i "x1" (.s x1)
    let a3 := writeSlot a2 i "y0" (.s y0)
    let a4 := writeSlot a3 i "y1" (.s y1)
    let a5 := writeSlot a4 i "z0" (.s z0)
    let a6 := writeSlot a5 i "z1" (.s z1)
    match intsOf l1 1 with
    | some [tv] => some (writeSlot a6 i "type" (.i tv), ls1)
    | _ => none
  | _ => none

/-- `for i in range(n)` loop of read_volumes. -/
def volLoop : Alloc → Nat → Nat → List String → Option (Alloc × List String)
  | a, _, 0, ls => some (a, ls)
  | a, i, m + 1, ls =>
    match volBody a i ls with
    | none => none
    | some (a1, ls1) => volLoop a1 (i + 1) m ls1

/-- read_volumes(fname) over the file's lines. -/
def read_volumes (ls : List String) : Option VolumesOut :=
  let (l1, ls1) := pyReadline ls
  let title := pyStrip l1
  let (l2, ls2) := pyReadline ls1
  match pyInt l2 with
  | none => none
  | some nvol =>
  match volLoop (allocShared nvol.toNat) 0 nvol.toNat ls2 with
  | none => none
  | some (a, _) => some { title := title, nvolumes := nvol, alloc := a }

/-- Result of read_grid. -/
structure GridOut where
  title : String
  geometry : Int
  dimension : Int
  xunits : String
  yunits : String
  zunits : String
  ngrids : Int
  alloc : Alloc
deriving DecidableEq, Repr

/-- Inner loop `for j in range(nX): grids[i][key][j] = float(line.strip())`:
read-modify-write of the array object stored in the shared dict. -/
def gvLoop (key : String) : Alloc → Nat → Nat → Nat → List String → Alloc × List String
  | a, _, _, 0, ls => (a, ls)
  | a, i, j, m + 1, ls =>
    let (l, ls1) := pyReadline ls
    let cur := match readSlot a i key with
      | .arr v => v
      | _ => []
    gvLoop key (writeSlot a i key (.arr (cur.set j (pyStrip l)))) i (j + 1) m ls1

/-- Grid record body: index, then nI / np.zeros(nI) / nI values, and the
same for nJ/ygv and nK/zgv; a negative count is an np.zeros error. -/
def gridBody (a : Alloc) (i : Nat) (ls : List String) : Option (Alloc × List String) :=
  let (l1, ls1) := pyReadline ls
  match pyInt l1 with
  | none => none
  | some idx =>
  let a1 := writeSlot a i "index" (.i idx)
  let (l2, ls2) := pyReadline ls1
  match pyInt l2 with
  | none => none
  | some nI =>
  if nI < 0 then none else
  let a2 := writeSlot a1 i "nI" (.i nI)
  let a3 := writeSlot a2 i "xgv" (.arr (List.replicate nI.toNat "0.0"))
  let (a4, ls3) := gvLoop "xgv" a3 i 0 nI.toNat ls2
  let (l4, ls4) := pyReadline ls3
  match pyInt l4 with
  | none => none
  | some nJ =>
  if nJ < 0 then none else
  let a5 := writeSlot a4 i "nJ" (.i nJ)
  let a6 := writeSlot a5 i "ygv" (.arr (List.replicate nJ.toNat "0.0"))
  let (a7, ls5) := gvLoop "ygv" a6 i 0 nJ.toNat ls4
  let (l6, ls6) := pyReadline ls5
  match pyInt l6 with
  | none => none
  | some nK =>
  if nK < 0 then none else
  let a8 := writeSlot a7 i "nK" (.i nK)
  let a9 := writeSlot a8 i "zgv" (.arr (List.replicate nK.toNat "0.0"))
  let (a10, ls7) := gvLoop "zgv" a9 i 0 nK.toNat ls6
  some (a10, ls7)

/-- `for i in range(ngrids)` loop of read_grid. -/
def gridLoop : Alloc → Nat → Nat → List String → Option (Alloc × List String)
  | a, _, 0, ls => some (a, ls)
  | a, i, m + 1, ls =>
    match gridBody a i ls with
    | none => none
    | some (a1, ls1) => gridLoop a1 (i + 1) m ls1

/-- read_grid(fname) over the file's lines. -/
def read_grid (ls : List String) : Option GridOut :=
  let (l1, ls1) := pyReadline ls
  let title := pyStrip l1
  let (l2, ls2) := pyReadline ls1
  match pyInt l2 with
  | none => none
  | some geo =>
  let (l3, ls3) := pyReadline ls2
  match pyInt l3 with
  | none => none
  | some dim =>
  let (l4, ls4) := pyReadline ls3
  let xu := pyStrip l4
  let (l5, ls5) := pyReadline ls4
  let yu := pyStrip l5
  let (l6, ls6) := pyReadline ls5
  let zu := pyStrip l6
  let (l7, ls7) := pyReadline ls6
  match pyInt l7 with
  | none => none
  | some ng =>
  match gridLoop (allocShared ng.toNat) 0 ng.toNat ls7 with
  | none => none
  | some (a, _) =>
    some { title := title, geometry := geo, dimension := dim,
           xunits := xu, yunits := yu, zunits := zu, ngrids := ng, alloc := a }


/-- Parsed content of one region record (two lines). -/
structure RegRec where
  line1 : String
  line2 : String
  nI : Int
  nJ : Int
  nK : Int
  x0 : String
  x1 : String
  y0 : String
  y1 : String
  z0 : String
  z1 : String
deriving DecidableEq, Repr

/-- The record's lines parse to its values. -/
def RegRec.WF (r : RegRec) : Prop :=
  intsOf r.line1 3 = some [r.nI, r.nJ, r.nK] ∧
  strsOf r.line2 6 = some [r.x0, r.x1, r.y0, r.y1, r.z0, r.z1]

instance (r : RegRec) : Decidable r.WF :=
  inferInstanceAs (Decidable (intsOf r.line1 3 = some [r.nI, r.nJ, r.nK] ∧
    strsOf r.line2 6 = some [r.x0, r.x1, r.y0, r.y1, r.z0, r.z1]))

/-- Dict a region record writes (insertion order of the source). -/
def regDictOf (r : RegRec) : PyDict :=
  [("nI", .i r.nI), ("nJ", .i r.nJ), ("nK", .i r.nK),
   ("xmin", .s r.x0), ("xmax", .s r.x1), ("ymin", .s r.y0), ("ymax", .s r.y1),
   ("zmin", .s r.z0), ("zmax", .s r.z1)]

/-- File lines of a list of region records. -/
def regLines : List RegRec → List String
  | [] => []
  | r :: rs => r.line1 :: r.line2 :: regLines rs

/-- Parsed content of one volume record (a single line parsed twice). -/
structure VolRec where
  line : String
  t0 : String
  tv : Int
  x0 : String
  x1 : String
  y0 : String
  y1 : String
  z0 : String
  z1 : String
deriving DecidableEq, Repr

/-- The record's line parses to its values (7 floats, 1 leading int). -/
def VolRec.WF (r : VolRec) : Prop :=
  strsOf r.line 7 = some [r.t0, r.x0, r.x1, r.y0, r.y1, r.z0, r.z1] ∧
  intsOf r.line 1 = some [r.tv]

instance (r : VolRec) : Decidable r.WF :=
  inferInstanceAs (Decidable (strsOf r.line 7 = some [r.t0, r.x0, r.x1, r.y0, r.y1, r.z0, r.z1] ∧
    intsOf r.line 1 = some [r.tv]))

/-- Dict a volume record writes (insertion order of the source). -/
def volDictOf (r : VolRec) : PyDict :=
  [("x0", .s r.x0), ("x1", .s r.x1), ("y0", .s r.y0), ("y1", .s r.y1),
   ("z0", .s r.z0), ("z1", .s r.z1), ("type", .i r.tv)]

/-- File lines of a list of volume records. -/
def volLines : List VolRec → List String
  | [] => []
  | r :: rs => r.line :: volLines rs

/-- Parsed content of one grid record. -/
structure GridRec where
  idxLine : String
  idx : Int
  nILine : String
  xs : List String
  nJLine : String
  ys : List String
  nKLine : String
  zs : List String
deriving DecidableEq, Repr

/-- The record's count lines parse to the value-line counts. -/
def GridRec.WF (r : GridRec) : Prop :=
  pyInt r.idxLine = some r.idx ∧
  pyInt r.nILine = some (r.xs.length : Int) ∧
  pyInt r.nJLine = some (r.ys.length : Int) ∧
  pyInt r.nKLine = some (r.zs.length : Int)

instance (r : GridRec) : Decidable r.WF :=
  inferInstanceAs (Decidable (pyInt r.idxLine = some r.idx ∧
    pyInt r.nILine = some (r.xs.length : Int) ∧
    pyInt r.nJLine = some (r.ys.length : Int) ∧
    pyInt r.nKLine = some (r.zs.length : Int)))

/-- Dict a grid record writes (insertion order of the source). -/
def gridDictOf (r : GridRec) : PyDict :=
  [("index", .i r.idx), ("nI", .i (r.xs.length : Int)), ("xgv", .arr (r.xs.map pyStrip)),
   ("nJ", .i (r.ys.length : Int)), ("ygv", .arr (r.ys.map pyStrip)),
   ("nK", .i (r.zs.length : Int)), ("zgv", .arr (r.zs.map pyStrip))]

/-- File lines of one grid record. -/
def gridRecLines (r : GridRec) : List String :=
  r.idxLine :: r.nILine :: (r.xs ++ (r.nJLine :: (r.ys ++ (r.nKLine :: r.zs))))

/-- File lines of a list of grid records. -/
def gridLines : List GridRec → List String
  | [] => []
  | r :: rs => gridRecLines r ++ gridLines rs

/-- Iterated per-index assignment into an array, starting at index j. -/
def setSeq : List String → Nat → List String → List String
  | a, _, [] => a
  | a, j, t :: ts => setSeq (a.set j t) (j + 1) ts


/-- Final value of a shared dict after a sequence of overwrites: the last
full-record dict, or the start dict when the sequence is empty. -/
def lastDict (d : PyDict) : List PyDict → PyDict
  | [] => d
  | x :: xs => lastDict x xs


/-- Dict writes of one grid record applied to a start dict, in source
order: index, nI, xgv, nJ, ygv, nK, zgv (the gv arrays already holding
their final per-index values). -/
def gridApply (d : PyDict) (r : GridRec) : PyDict :=
  dictSet (dictSet (dictSet (dictSet (dictSet (dictSet (dictSet d
    "index" (.i r.idx)) "nI" (.i (r.xs.length : Int))) "xgv" (.arr (r.xs.map pyStrip)))
    "nJ" (.i (r.ys.length : Int))) "ygv" (.arr (r.ys.map pyStrip)))
    "nK" (.i (r.zs.length : Int))) "zgv" (.arr (r.zs.map pyStrip))


/-- Concrete region records for exercising the aliasing behaviour. -/
def regW1 : RegRec :=
  { line1 := "1 2 3", line2 := "0.0 1.0 0.0 1.0 0.0 1.0", nI := 1, nJ := 2, nK := 3,
    x0 := "0.0", x1 := "1.0", y0 := "0.0", y1 := "1.0", z0 := "0.0", z1 := "1.0" }

def regW2 : RegRec :=
  { line1 := "4 5 6", line2 := "2.0 3.0 2.0 3.0 2.0 3.0", nI := 4, nJ := 5, nK := 6,
    x0 := "2.0", x1 := "3.0", y0 := "2.0", y1 := "3.0", z0 := "2.0", z1 := "3.0" }

/-- Concrete volume records for exercising the aliasing behaviour. -/
def volW1 : VolRec :=
  { line := "7 0.0 1.0 0.0 1.0 0.0 1.0", t0 := "7", tv := 7,
    x0 := "0.0", x1 := "1.0", y0 := "0.0", y1 := "1.0", z0 := "0.0", z1 := "1.0" }

def volW2 : VolRec :=
  { line := "8 2.0 3.0 2.0 3.0 2.0 3.0", t0 := "8", tv := 8,
    x0 := "2.0", x1 := "3.0", y0 := "2.0", y1 := "3.0", z0 := "2.0", z1 := "3.0" }

/-- Concrete grid records for exercising the aliasing behaviour. -/
def gridW1 : GridRec :=
  { idxLine := "1", idx := 1, nILine := "2", xs := ["0.0", "1.0"],
    nJLine := "1", ys := ["5.0"], nKLine := "1", zs := ["9.0"] }

def gridW2 : GridRec :=
  { idxLine := "2", idx := 2, nILine := "1", xs := ["4.0"],
    nJLine := "2", ys := ["6.0", "7.0"], nKLine := "1", zs := ["8.0"] }

theorem encW_length (w : Nat) : (encW w).length = 4 := by simp [encW]

theorem encWs_length (ws : List Nat) : (encWs ws).length = 4 * ws.length := by
  induction ws with
  | nil => simp [encWs]
  | cons w ws ih => simp [encWs, encW, ih]; omega

theorem decode4_encW (w : Nat) (hw : wordOk w) : decode4 (encW w) = w := by
  simp [decode4, encW]
  unfold wordOk at hw
  omega

theorem toSigned_ofNat (u : Nat) (hu : cntOk u) : toSigned u = (u : Int) := by
  unfold toSigned cntOk at *
  rw [if_pos hu]

theorem toSigned_inj (u v : Nat) (hu : wordOk u) (hv : wordOk v) :
    toSigned u = toSigned v ↔ u = v := by
  unfold toSigned wordOk at *
  constructor
  · intro h
    split at h <;> split at h <;> omega
  · intro h; rw [h]

theorem fread_exact (s : PFile) (b rest : List Nat) (n : Nat)
    (h : s.data.drop s.pos = b ++ rest) (hb : b.length = n) :
    fread n s = (b, { s with pos := s.pos + n }) := by
  subst hb
  have hlen : s.data.length - s.pos = b.length + rest.length := by
    have h2 := congrArg List.length h
    simpa using h2
  unfold fread
  rw [h]
  refine Prod.ext ?_ ?_
  · simp [List.take_left]
  · simp only
    congr 1
    omega

theorem drop_shift (l : List Nat) (p : Nat) (x y : List Nat) (h : l.drop p = x ++ y) :
    l.drop (p + x.length) = y := by
  have h1 : (l.drop p).drop x.length = l.drop (p + x.length) := by
    rw [List.drop_drop, Nat.add_comm]
  rw [← h1, h, List.drop_left]

theorem chunkByF_fuel (f1 f2 k : Nat) (b : List Nat) (h1 : b.length ≤ f1) (h2 : b.length ≤ f2) :
    chunkByF f1 k b = chunkByF f2 k b := by
  induction f1 generalizing f2 b with
  | zero =>
    have hb : b.length = 0 := Nat.le_zero.mp h1
    cases f2 with
    | zero => rfl
    | succ m =>
      simp only [chunkByF]
      rw [if_pos]
      omega
  | succ n ih =>
    cases f2 with
    | zero =>
      have hb : b.length = 0 := Nat.le_zero.mp h2
      simp only [chunkByF]
      rw [if_pos]
      omega
    | succ m =>
      simp only [chunkByF]
      by_cases hc : k = 0 ∨ b.length < k
      · rw [if_pos hc, if_pos hc]
      · rw [if_neg hc, if_neg hc]
        push_neg at hc
        congr 1
        exact ih m (b.drop k) (by simp; omega) (by simp; omega)

theorem chunkBy_nil_of_lt (k : Nat) (b : List Nat) (h : b.length < k) : chunkBy k b = [] := by
  unfold chunkBy
  cases hb : b.length with
  | zero => rfl
  | succ m =>
    simp only [chunkByF]
    rw [if_pos]
    right
    omega

theorem chunkBy_cons (k : Nat) (b : List Nat) (hk : 0 < k) (hb : k ≤ b.length) :
    chunkBy k b = b.take k :: chunkBy k (b.drop k) := by
  unfold chunkBy
  cases hblen : b.length with
  | zero => omega
  | succ m =>
    simp only [chunkByF]
    rw [if_neg (by omega)]
    congr 1
    exact chunkByF_fuel m (b.drop k).length k (b.drop k) (by simp; omega) (le_refl _)

theorem chunkBy_append (k : Nat) (a b : List Nat) (ha : a.length = k) (hk : 0 < k) :
    chunkBy k (a ++ b) = a :: chunkBy k b := by
  rw [chunkBy_cons k (a ++ b) hk (by simp; omega)]
  congr 1
  · rw [← ha]; exact List.take_left a b
  · rw [← ha, List.drop_left]

theorem chunkBy_length (k : Nat) (b : List Nat) (hk : 0 < k) :
    (chunkBy k b).length = b.length / k := by
  suffices h : ∀ f (c : List Nat), c.length ≤ f → (chunkByF f k c).length = c.length / k by
    exact h b.length b (le_refl _)
  intro f
  induction f with
  | zero =>
    intro c hc
    have : c.length = 0 := Nat.le_zero.mp hc
    simp [chunkByF, this, Nat.zero_div]
  | succ n ih =>
    intro c hc
    simp only [chunkByF]
    by_cases hcond : k = 0 ∨ c.length < k
    · rw [if_pos hcond]
      have hlt : c.length < k := by
        rcases hcond with h0 | hlt
        · omega
        · exact hlt
      simp [Nat.div_eq_of_lt hlt]
    · rw [if_neg hcond]
      push_neg at hcond
      have hle : k ≤ c.length := hcond.2
      have hdl : (c.drop k).length = c.length - k := by simp
      have ihd := ih (c.drop k) (by simp; omega)
      simp only [List.length_cons, ihd, hdl]
      rw [Nat.div_eq_sub_div hk hle]

theorem decodeWords_nil : decodeWords [] = [] := rfl

theorem decodeWords_encWs (ws : List Nat) (hw : ∀ w ∈ ws, wordOk w) :
    decodeWords (encWs ws) = ws := by
  induction ws with
  | nil => rfl
  | cons w ws ih =>
    unfold decodeWords encWs
    rw [chunkBy_append 4 (encW w) (encWs ws) (encW_length w) (by omega)]
    simp only [List.map_cons]
    rw [decode4_encW w (hw w (by simp))]
    congr 1
    exact ih (fun x hx => hw x (by simp [hx]))

theorem get_int_enc (s : PFile) (w : Nat) (rest : List Nat)
    (h : s.data.drop s.pos = encW w ++ rest) (hw : wordOk w) :
    get_int s = .ok (toSigned w, { s with pos := s.pos + 4 }) := by
  unfold get_int
  rw [fread_exact s (encW w) rest 4 h (encW_length w)]
  dsimp only
  rw [encW_length, if_pos rfl, decode4_encW w hw]

theorem get_float1_enc (s : PFile) (w : Nat) (rest : List Nat)
    (h : s.data.drop s.pos = encW w ++ rest) (hw : wordOk w) :
    get_float1 s = .ok (w, { s with pos := s.pos + 4 }) := by
  unfold get_float1 get_floatN
  rw [if_neg (by omega)]
  have h4 : (4 : Nat) * (1 : Int).toNat = 4 := by norm_num
  rw [h4]
  rw [fread_exact s (encW w) rest 4 h (encW_length w)]
  dsimp only
  have hdw : decodeWords (encW w) = [w] := by
    have := decodeWords_encWs [w] (by intro x hx; simp at hx; rw [hx]; exact hw)
    simpa [encWs] using this
  rw [encW_length, if_pos rfl, hdw]
  rfl

theorem get_floatN_enc (s : PFile) (ws rest : List Nat)
    (h : s.data.drop s.pos = encWs ws ++ rest) (hw : ∀ w ∈ ws, wordOk w) :
    get_floatN (ws.length : Int) s = .ok (ws, { s with pos := s.pos + 4 * ws.length }) := by
  unfold get_floatN
  rw [if_neg (by omega)]
  have htn : ((ws.length : Int)).toNat = ws.length := rfl
  rw [htn]
  rw [fread_exact s (encWs ws) rest (4 * ws.length) h (encWs_length ws)]
  dsimp only
  rw [encWs_length ws, if_pos rfl, decodeWords_encWs ws hw]

theorem get_intN_enc (s : PFile) (ws rest : List Nat) (n : Nat)
    (h : s.data.drop s.pos = encWs ws ++ rest) (hw : ∀ w ∈ ws, wordOk w) (hn : ws.length = n) :
    get_intN n s = .ok (ws.map toSigned, { s with pos := s.pos + 4 * n }) := by
  subst hn
  unfold get_intN
  rw [fread_exact s (encWs ws) rest (4 * ws.length) h (encWs_length ws)]
  dsimp only
  rw [encWs_length ws, if_pos rfl, decodeWords_encWs ws hw]

theorem pad4_ge (n : Nat) : n ≤ pad4 n := by
  unfold pad4
  split <;> omega

/-- Core behavior of the string decoder on any stream offering two length
prefixes and enough payload: the first prefix rules, the warning fires
exactly on a mismatch, the first `a` payload bytes are returned, and
the cursor advances by exactly `8 + pad4 a` bytes. -/
theorem get_str_spec (s : PFile) (a b : Nat) (tail : List Nat)
    (h : s.data.drop s.pos = encW a ++ (encW b ++ tail))
    (ha : cntOk a) (hb : wordOk b) (htail : pad4 a ≤ tail.length) :
    get_str s = .ok ((tail.take a, decide (a ≠ b)), { s with pos := s.pos + (8 + pad4 a) }) := by
  have haw : wordOk a := by unfold wordOk; unfold cntOk at ha; omega
  unfold get_str
  rw [get_int_enc s a (encW b ++ tail) h haw]
  dsimp only
  have h2 : s.data.drop (s.pos + 4) = encW b ++ tail := by
    have := drop_shift s.data s.pos (encW a) (encW b ++ tail) h
    rwa [encW_length] at this
  rw [get_int_enc { s with pos := s.pos + 4 } b tail (by simpa using h2) hb]
  dsimp only
  rw [toSigned_ofNat a ha]
  rw [if_neg (by omega)]
  have h3 : s.data.drop (s.pos + 4 + 4) = tail := by
    have := drop_shift s.data (s.pos + 4) (encW b) tail h2
    rwa [encW_length] at this
  have htn : ((a : Int)).toNat = a := rfl
  rw [htn]
  have hsplit : tail = tail.take (pad4 a) ++ tail.drop (pad4 a) := (List.take_append_drop _ _).symm
  have hlen : (tail.take (pad4 a)).length = a + (if a % 4 = 0 then 0 else 4 - a % 4) := by
    rw [List.length_take]
    unfold pad4 at htail ⊢
    omega
  rw [fread_exact { s with pos := s.pos + 4 + 4 } (tail.take (pad4 a)) (tail.drop (pad4 a))
        (a + (if a % 4 = 0 then 0 else 4 - a % 4))
        (by simpa using hsplit ▸ h3) hlen]
  rw [if_pos (by rw [hlen])]
  have htake : (tail.take (pad4 a)).take a = tail.take a := by
    rw [List.take_take]
    congr 1
    exact Nat.min_eq_left (pad4_ge a)
  rw [htake]
  have hiff : ((a : Int) ≠ toSigned b) ↔ (a ≠ b) := by
    rw [← toSigned_ofNat a ha]
    constructor
    · intro hne he; exact hne (by rw [he])
    · intro hne he; exact hne ((toSigned_inj a b haw hb).mp he)
  have hwarn : (decide ((a : Int) ≠ toSigned b)) = (decide (a ≠ b)) := decide_eq_decide.mpr hiff
  rw [hwarn]
  dsimp only
  have hpos : s.pos + 4 + 4 + (a + (if a % 4 = 0 then 0 else 4 - a % 4)) = s.pos + (8 + pad4 a) := by
    unfold pad4; omega
  rw [hpos]

/-- Witness for get_str_spec, the spec example: len1 = len2 = 5, payload
"abcde" (bytes 97..101) padded to 8 bytes, followed by two extra stream
bytes; the decode returns the 5 payload bytes, no warning, and the
cursor lands exactly 16 bytes further. -/
theorem get_str_spec_witness :
    get_str { data := encW 5 ++ (encW 5 ++ [97, 98, 99, 100, 101, 0, 0, 0, 7, 7]), pos := 0 } =
      .ok (([97, 98, 99, 100, 101], false),
           { data := encW 5 ++ (encW 5 ++ [97, 98, 99, 100, 101, 0, 0, 0, 7, 7]), pos := 16 }) := by
  have h := get_str_spec
    { data := encW 5 ++ (encW 5 ++ [97, 98, 99, 100, 101, 0, 0, 0, 7, 7]), pos := 0 }
    5 5 [97, 98, 99, 100, 101, 0, 0, 0, 7, 7] (by decide) (by decide) (by decide) (by decide)
  simpa using h

theorem pextParams_pos (n : Nat) : 0 < (pextParams n).length := by
  unfold pextParams
  dsimp only
  split
  · simp
  · split
    · simp
    · split <;> simp

theorem pextParams_eq_schemaSpec (n : Nat) : pextParams n = pextSchemaSpec n := by
  unfold pextParams pextSchemaSpec
  dsimp only
  split
  · rfl
  · split
    · rfl
    · split <;> rfl

/-- C3 counterexample: a declared quantity count of 10 lies outside
{8,9,11,12}, yet read_pext_ll does NOT fail: it silently decodes with the
base 8-column schema (the source if/elif chain has no else branch). -/
theorem read_pext_unsupported_count_no_failure :
    read_pext_ll hdrPext10 { data := [], pos := 0 } =
      .ok ({ cols := ["t", "q", "x", "y", "z", "ux", "uy", "uz"], rows := [] },
           { data := [], pos := 0 }) := rfl

/-- C3 (amended): read_pext_ll selects its column schema solely from the
header's quantity count: 9 adds E, 11 adds xi,yi,zi, 12 adds E,xi,yi,zi,
and every other count (8 included) keeps the base columns
t,q,x,y,z,ux,uy,uz; no count is rejected. -/
theorem read_pext_schema_selection (header : Header) (s : PFile) (tbl : PextTable) (s1 : PFile)
    (h : read_pext_ll header s = .ok (tbl, s1)) :
    tbl.cols = pextSchemaSpec header.pextQuantities.length := by
  unfold read_pext_ll at h
  dsimp only at h
  split at h
  · cases h
    exact pextParams_eq_schemaSpec _
  · cases h

/-- Witness for read_pext_schema_selection at quantity count 9. -/
theorem read_pext_schema_selection_witness :
    read_pext_ll hdrPext9 { data := [], pos := 0 } =
      .ok ({ cols := ["t", "q", "x", "y", "z", "ux", "uy", "uz", "E"], rows := [] },
           { data := [], pos := 0 }) ∧
    (["t", "q", "x", "y", "z", "ux", "uy", "uz", "E"] : List String) = pextSchemaSpec 9 := by
  constructor
  · rfl
  · exact read_pext_schema_selection hdrPext9 { data := [], pos := 0 }
      { cols := ["t", "q", "x", "y", "z", "ux", "uy", "uz", "E"], rows := [] }
      { data := [], pos := 0 } rfl

/-- C7: extraction reconstruction decodes the whole remaining stream as
fixed-width rows of 4 bytes per column: when the remaining byte count is
an exact multiple of the row width, the table has remaining/row_width
rows; a non-zero remainder is a decode failure. -/
theorem read_pext_rowcount_spec (header : Header) (s : PFile) :
    (((s.data.length - s.pos) % (4 * (pextParams header.pextQuantities.length).length) = 0) →
      ∃ tbl s1, read_pext_ll header s = .ok (tbl, s1) ∧
        tbl.rows.length =
          (s.data.length - s.pos) / (4 * (pextParams header.pextQuantities.length).length)) ∧
    (((s.data.length - s.pos) % (4 * (pextParams header.pextQuantities.length).length) ≠ 0) →
      ∃ s1, read_pext_ll header s = .error (.badPextSize, s1)) := by
  have hb : ((s.data.drop s.pos).take (s.data.length - s.pos)).length = s.data.length - s.pos := by
    simp
  have hpos : 0 < 4 * (pextParams header.pextQuantities.length).length := by
    have := pextParams_pos header.pextQuantities.length
    omega
  constructor
  · intro hmod
    refine ⟨{ cols := pextParams header.pextQuantities.length,
              rows := (chunkBy (4 * (pextParams header.pextQuantities.length).length)
                        ((s.data.drop s.pos).take (s.data.length - s.pos))).map decodeWords },
            { s with pos := max s.pos (min (s.pos + (s.data.length - s.pos)) s.data.length) },
            ?_, ?_⟩
    · unfold read_pext_ll fread
      dsimp only
      rw [if_pos (by rw [hb]; exact hmod)]
    · dsimp only
      rw [List.length_map, chunkBy_length _ _ hpos, hb]
  · intro hmod
    refine ⟨{ s with pos := max s.pos (min (s.pos + (s.data.length - s.pos)) s.data.length) }, ?_⟩
    unfold read_pext_ll fread
    dsimp only
    rw [if_neg (by rw [hb]; exact hmod)]

/-- Witness for read_pext_rowcount_spec: with 8 columns (row width 32),
320 bytes yield 10 rows and 317 bytes are a decode failure. -/
theorem read_pext_rowcount_spec_witness :
    (∃ tbl s1, read_pext_ll hdrPext8 { data := List.replicate 320 0, pos := 0 } = .ok (tbl, s1) ∧
        tbl.rows.length = 10) ∧
    (∃ s1, read_pext_ll hdrPext8 { data := List.replicate 317 0, pos := 0 } =
        .error (.badPextSize, s1)) := by
  constructor
  · obtain ⟨tbl, s1, h1, h2⟩ :=
      (read_pext_rowcount_spec hdrPext8 { data := List.replicate 320 0, pos := 0 }).1 (by decide)
    exact ⟨tbl, s1, h1, by rw [h2]; decide⟩
  · exact (read_pext_rowcount_spec hdrPext8 { data := List.replicate 317 0, pos := 0 }).2 (by decide)

/-- C9: read_flds treats an explicitly empty requested-quantity list exactly
like an omitted argument, because the emptiness test is a Python
falsiness check (`if not flds`): every declared quantity is decoded, an
empty subset does not mean "skip everything". -/
theorem read_flds_empty_list_reads_all (s : PFile) :
    read_flds s (some []) = read_flds s none := by
  unfold read_flds
  cases hg : get_header s with
  | error e => rfl
  | ok p =>
    obtain ⟨header, s1⟩ := p
    dsimp only
    cases hsz : (if header.dump_type = 2 then some 3
                 else if header.dump_type = 3 then some 1 else none : Option Nat) with
    | none => rfl
    | some size => rfl

/-- C5: a non-empty request containing a name absent from the declared
quantities makes read_flds fail with an error naming the first missing
quantity together with the available set, and the error carries the file
cursor still at the end-of-header position: no domain payload byte has
been consumed or decoded. -/
theorem read_flds_invalid_request (s s1 : PFile) (header : Header)
    (l : List (List Nat)) (m : List Nat)
    (hh : get_header s = .ok (header, s1))
    (hdt : header.dump_type = 2 ∨ header.dump_type = 3)
    (hfind : l.find? (fun f => !((header.quantitiesIter.map Prod.fst).contains f)) = some m) :
    read_flds s (some l) =
      .error (.invalidField m (header.quantitiesIter.map Prod.fst), s1) := by
  have hl : l ≠ [] := by
    intro h
    subst h
    simp [List.find?] at hfind
  unfold read_flds
  rw [hh]
  dsimp only
  have hsz : ∃ sz : Nat, (if header.dump_type = 2 then some 3
      else if header.dump_type = 3 then some 1 else none : Option Nat) = some sz := by
    rcases hdt with h2 | h3
    · exact ⟨3, by rw [h2]; rfl⟩
    · refine ⟨1, ?_⟩
      rw [h3]
      rfl
  obtain ⟨sz, hsz⟩ := hsz
  rw [hsz]
  dsimp only
  cases l with
  | nil => exact absurd rfl hl
  | cons x xs =>
    rw [if_neg (by simp [pyFalsy])]
    dsimp only [Option.getD]
    rw [hfind]

/-- C4 (code bug): get_header stores `zip(names, units)` for a fields or
scalars dump — in Python 3 that is a lazy iterator, and read_flds's
validation step `[i[0] for i in header['quantities']]` iterates it.
On this one-quantity stream the header decoder yields the pair
("Q","u"), but the header returned by read_flds has its quantities
iterator exhausted: it yields nothing. -/
theorem read_flds_exhausts_quantities_iterator :
    get_header { data := encodeFlds fldsC4, pos := 0 } =
      .ok ({ dump_type := 2, dversion := 1, title := [], revision := [],
             timestamp := 0, geometry := 0, domains := 0,
             quantitiesIter := [([81], [117])] },
           { data := encodeFlds fldsC4, pos := 64 }) ∧
    read_flds { data := encodeFlds fldsC4, pos := 0 } none =
      .ok ([], { dump_type := 2, dversion := 1, title := [], revision := [],
                 timestamp := 0, geometry := 0, domains := 0,
                 quantitiesIter := [] },
           { data := encodeFlds fldsC4, pos := 64 }) := by
  constructor
  · rfl
  · rfl

theorem encFrame_length (f : FrameSpec) : (encFrame f).length = 12 + f.payload.length := by
  simp only [encFrame, List.length_append, encW_length]

theorem encFrames_length_ge (frs : List FrameSpec) : frs.length ≤ (encFrames frs).length := by
  induction frs with
  | nil => simp [encFrames]
  | cons f fs ih =>
    simp only [encFrames, List.length_append, List.length_cons, encFrame_length]
    omega

theorem pass1_enc (pbytes : Nat) (frs : List FrameSpec) :
    ∀ (fuel : Nat) (done : List Nat) (s : PFile),
      (∀ f ∈ frs, FrameSpec.WF pbytes f) →
      frs.length < fuel →
      s.data = done ++ encFrames frs → s.pos = done.length →
      pass1 pbytes fuel s = .ok (mkIndex done.length frs, { s with pos := s.data.length }) := by
  induction frs with
  | nil =>
    intro fuel done s hwf hfuel hdata hpos
    cases fuel with
    | zero => omega
    | succ n =>
      simp only [pass1]
      have hlen : s.data.length = s.pos := by
        rw [hdata, hpos]
        simp [encFrames]
      have heof : iseof s = true := by
        unfold iseof
        simp [hlen]
      rw [if_pos heof, hlen]
      rfl
  | cons f fs ih =>
    intro fuel done s hwf hfuel hdata hpos
    cases fuel with
    | zero => omega
    | succ n =>
      obtain ⟨hwt, hws, hwp, hpl⟩ := hwf f (by simp)
      have hwpw : wordOk f.pnum := by unfold wordOk; unfold cntOk at hwp; omega
      have hdlen : s.data.length =
          done.length + (12 + f.payload.length) + (encFrames fs).length := by
        rw [hdata]
        simp [encFrames, List.length_append, encFrame_length]
        omega
      simp only [pass1]
      have heof : iseof s = false := by
        unfold iseof
        simp only [decide_eq_false_iff_not, not_le]
        omega
      rw [if_neg (by simp [heof])]
      have h0 : s.data.drop s.pos =
          encW f.t ++ (encW f.step ++ (encW f.pnum ++ (f.payload ++ encFrames fs))) := by
        rw [hdata, hpos, List.drop_left]
        simp [encFrames, encFrame, List.append_assoc]
      have h1 : s.data.drop (s.pos + 4) =
          encW f.step ++ (encW f.pnum ++ (f.payload ++ encFrames fs)) := by
        have := drop_shift s.data s.pos (encW f.t) _ h0
        rwa [encW_length] at this
      have h2 : s.data.drop (s.pos + 4 + 4) =
          encW f.pnum ++ (f.payload ++ encFrames fs) := by
        have := drop_shift s.data (s.pos + 4) (encW f.step) _ h1
        rwa [encW_length] at this
      rw [get_float1_enc s f.t _ h0 hwt]
      dsimp only
      rw [get_int_enc { s with pos := s.pos + 4 } f.step _ h1 hws]
      dsimp only
      rw [get_int_enc { s with pos := s.pos + 4 + 4 } f.pnum _ h2 hwpw]
      dsimp only
      rw [toSigned_ofNat f.pnum hwp]
      rw [show s.pos + 4 + 4 + 4 = s.pos + 12 from by omega]
      unfold seekRel
      dsimp only
      rw [if_neg (by rw [not_lt]; positivity)]
      dsimp only
      have hcast : ((s.pos + 12 : Nat) : Int) + (f.pnum : Int) * ((pbytes : Nat) : Int) =
          ((s.pos + 12 + f.pnum * pbytes : Nat) : Int) := by
        push_cast
        ring
      rw [hcast, Int.toNat_natCast]
      have hdata4 : (⟨s.data, s.pos + 12 + f.pnum * pbytes⟩ : PFile).data =
          (done ++ encFrame f) ++ encFrames fs := by
        simp only
        rw [hdata]
        simp [encFrames, List.append_assoc]
      have hpos4 : (⟨s.data, s.pos + 12 + f.pnum * pbytes⟩ : PFile).pos =
          (done ++ encFrame f).length := by
        simp only [List.length_append, encFrame_length]
        omega
      have hfuel2 : fs.length < n := by
        simp only [List.length_cons] at hfuel
        omega
      rw [ih n (done ++ encFrame f) _ (fun g hg => hwf g (by simp [hg])) hfuel2 hdata4 hpos4]
      dsimp only
      simp only [mkIndex]
      rw [toSigned_ofNat f.pnum hwp]
      have hoff : (done ++ encFrame f).length = done.length + 12 + f.payload.length := by
        simp [encFrame_length]
        omega
      rw [hoff, ← hpos, hpl]

theorem pass2_enc (nparams : Nat) (frs : List FrameSpec) :
    ∀ (done : List Nat) (s : PFile),
      (∀ f ∈ frs, FrameSpec.WF (4 * (1 + nparams)) f) →
      s.data = done ++ encFrames frs →
      pass2 nparams (mkIndex done.length frs) s =
        .ok (frs.map (expectedFrame nparams),
             match frs with
             | [] => s
             | _ :: _ => { s with pos := s.data.length }) := by
  induction frs with
  | nil =>
    intro done s hwf hdata
    rfl
  | cons f fs ih =>
    intro done s hwf hdata
    obtain ⟨hwt, hws, hwp, hpl⟩ := hwf f (by simp)
    have hrb : 0 < 4 * (1 + nparams) := by omega
    simp only [mkIndex, pass2]
    rw [toSigned_ofNat f.pnum hwp]
    rw [if_neg (by omega)]
    rw [Int.toNat_natCast]
    have hd0 : s.data.drop done.length = encFrames (f :: fs) := by
      rw [hdata, List.drop_left]
    have hd1 : s.data.drop done.length =
        (encW f.t ++ (encW f.step ++ encW f.pnum)) ++ (f.payload ++ encFrames fs) := by
      rw [hd0]
      simp [encFrames, encFrame, List.append_assoc]
    have hd2 : s.data.drop (done.length + 12) = f.payload ++ encFrames fs := by
      have := drop_shift s.data done.length _ _ hd1
      simpa [encW] using this
    rw [fread_exact ⟨s.data, done.length + 12⟩ f.payload (encFrames fs)
          (f.pnum * (4 * (1 + nparams))) hd2 hpl]
    dsimp only
    rw [if_pos (by omega)]
    have hclen : (chunkBy (4 * (1 + nparams)) f.payload).length = f.pnum := by
      rw [chunkBy_length _ _ hrb, hpl, Nat.mul_div_cancel _ hrb]
    have htake : (chunkBy (4 * (1 + nparams)) f.payload).take f.pnum =
        chunkBy (4 * (1 + nparams)) f.payload := by
      apply List.take_of_length_le
      omega
    rw [htake]
    rw [show f.pnum * (4 * (1 + nparams)) = f.payload.length from hpl.symm]
    have hdata2 : (⟨s.data, done.length + 12 + f.payload.length⟩ : PFile).data =
        (done ++ encFrame f) ++ encFrames fs := by
      simp only
      rw [hdata]
      simp [encFrames, List.append_assoc]
    have hoff : (done ++ encFrame f).length = done.length + 12 + f.payload.length := by
      simp [encFrame_length]
      omega
    have hrec := ih (done ++ encFrame f) ⟨s.data, done.length + 12 + f.payload.length⟩
      (fun g hg => hwf g (by simp [hg])) hdata2
    rw [hoff] at hrec
    rw [hrec]
    cases fs with
    | nil =>
      dsimp only
      simp only [List.map_cons, List.map_nil, expectedFrame]
      rw [toSigned_ofNat f.pnum hwp]
      have hfin : s.data.length = done.length + 12 + f.payload.length := by
        rw [hdata]
        simp [encFrames, encFrame_length]
        omega
      rw [hfin]
    | cons g gs =>
      dsimp only
      simp only [List.map_cons, expectedFrame]
      rw [toSigned_ofNat f.pnum hwp]

/-- C2: on a well-formed movie stream read_pmovie_ll produces, in stream
order, one frame per (t, step, pnum) triple; each frame's rows table has
exactly the declared pnum fixed-width records (int32 particle id plus
one float word per enabled param, row width 4*(1+enabled_param_count)
bytes); and pass 1's end-of-stream probe stops with the cursor exactly
at the end of the final byte. -/
theorem read_pmovie_frames_spec (header : Header) (frs : List FrameSpec)
    (hne : header.params ≠ [])
    (hwf : ∀ f ∈ frs, FrameSpec.WF ((header.params.length + 1) * 4) f) :
    read_pmovie_ll header { data := encFrames frs, pos := 0 } =
      .ok (frs.map (expectedFrame header.params.length),
           { data := encFrames frs, pos := (encFrames frs).length }) ∧
    (∀ f ∈ frs, (expectedFrame header.params.length f).rows.length = f.pnum) ∧
    pass1 ((header.params.length + 1) * 4) ((encFrames frs).length + 1)
        { data := encFrames frs, pos := 0 } =
      .ok (mkIndex 0 frs, { data := encFrames frs, pos := (encFrames frs).length }) := by
  have hwf2 : ∀ f ∈ frs, FrameSpec.WF (4 * (1 + header.params.length)) f := by
    intro f hf
    obtain ⟨h1, h2, h3, h4⟩ := hwf f hf
    refine ⟨h1, h2, h3, ?_⟩
    rw [h4]
    ring
  have hp1 := pass1_enc ((header.params.length + 1) * 4) frs
      ((encFrames frs).length + 1) [] { data := encFrames frs, pos := 0 }
      hwf (by have := encFrames_length_ge frs; omega) (by simp) rfl
  have hp2 := pass2_enc header.params.length frs []
      { data := encFrames frs, pos := (encFrames frs).length } hwf2 (by simp)
  have hrows : ∀ f ∈ frs, (expectedFrame header.params.length f).rows.length = f.pnum := by
    intro f hf
    obtain ⟨h1, h2, h3, h4⟩ := hwf2 f hf
    unfold expectedFrame
    simp only [List.length_map]
    rw [chunkBy_length _ _ (by omega), h4, Nat.mul_div_cancel _ (by omega)]
  simp only [List.length_nil] at hp1 hp2
  refine ⟨?_, hrows, hp1⟩
  unfold read_pmovie_ll
  cases hps : header.params with
  | nil => exact absurd hps hne
  | cons p ps =>
    dsimp only
    rw [← hps]
    rw [hp1]
    dsimp only
    rw [hp2]
    cases frs with
    | nil => rfl
    | cons a as => rfl

/-- Witness for read_pmovie_frames_spec: 3 frames with particle counts
{0, 2, 5} and 3 enabled params; the rows lengths come out {0, 2, 5} and
the stream is consumed exactly to its final byte. -/
theorem read_pmovie_frames_spec_witness :
    read_pmovie_ll movHdrW { data := encFrames movFramesW, pos := 0 } =
      .ok (movFramesW.map (expectedFrame 3),
           { data := encFrames movFramesW, pos := (encFrames movFramesW).length }) ∧
    (∀ f ∈ movFramesW, (expectedFrame 3 f).rows.length = f.pnum) := by
  have h := read_pmovie_frames_spec movHdrW movFramesW (by decide) (by decide)
  exact ⟨h.1, h.2.1⟩

theorem encStr_length (b : List Nat) : (encStr b).length = 8 + pad4 b.length := by
  simp only [encStr, List.length_append, encW_length, List.length_replicate]
  have := pad4_ge b.length
  omega

theorem get_strN_enc (bs : List (List Nat)) :
    ∀ (n : Nat) (s : PFile) (rest : List Nat),
      bs.length = n →
      s.data.drop s.pos = encStrs bs ++ rest →
      (∀ b ∈ bs, strOk b) →
      get_strN n s = .ok (bs, { s with pos := s.pos + (encStrs bs).length }) := by
  induction bs with
  | nil =>
    intro n s rest hn h hok
    subst hn
    simp [get_strN, encStrs]
  | cons b bs ih =>
    intro n s rest hn h hok
    subst hn
    have hb : strOk b := hok b (by simp)
    have hexp : s.data.drop s.pos =
        encW b.length ++ (encW b.length ++
          (b ++ (List.replicate (pad4 b.length - b.length) 0 ++ (encStrs bs ++ rest)))) := by
      rw [h]
      simp [encStrs, encStr, List.append_assoc]
    have hbw : wordOk b.length := by
      unfold strOk cntOk at hb
      unfold wordOk
      omega
    have htail : pad4 b.length ≤
        (b ++ (List.replicate (pad4 b.length - b.length) 0 ++ (encStrs bs ++ rest))).length := by
      simp only [List.length_append, List.length_replicate]
      have := pad4_ge b.length
      omega
    simp only [List.length_cons, get_strN]
    rw [get_str_spec s b.length b.length _ hexp hb hbw htail]
    dsimp only
    have htake : (b ++ (List.replicate (pad4 b.length - b.length) 0 ++ (encStrs bs ++ rest))).take
        b.length = b := by
      rw [List.take_append_of_le_length (le_refl _), List.take_length]
    rw [htake]
    have hnext : s.data.drop (s.pos + (8 + pad4 b.length)) = encStrs bs ++ rest := by
      have h2 : s.data.drop s.pos = encStr b ++ (encStrs bs ++ rest) := by
        rw [h]
        simp [encStrs, List.append_assoc]
      have := drop_shift s.data s.pos (encStr b) _ h2
      rwa [encStr_length] at this
    rw [ih bs.length { s with pos := s.pos + (8 + pad4 b.length) } rest rfl hnext
        (fun x hx => hok x (by simp [hx]))]
    dsimp only
    have hlen : s.pos + (8 + pad4 b.length) + (encStrs bs).length =
        s.pos + (encStrs (b :: bs)).length := by
      simp only [encStrs, List.length_append, encStr_length]
      omega
    rw [hlen]

theorem toSigned_ne_zero (w : Nat) (hw : wordOk w) : (toSigned w ≠ 0) ↔ (w ≠ 0) := by
  unfold toSigned wordOk at *
  split <;> constructor <;> intro h1 h2 <;> omega

theorem get_boolN_enc (ws : List Nat) :
    ∀ (s : PFile) (rest : List Nat),
      s.data.drop s.pos = encWs ws ++ rest →
      (∀ w ∈ ws, wordOk w) →
      get_boolN ws.length s =
        .ok (ws.map (fun w => decide (w ≠ 0)), { s with pos := s.pos + 4 * ws.length }) := by
  induction ws with
  | nil =>
    intro s rest h hok
    simp [get_boolN]
  | cons w ws ih =>
    intro s rest h hok
    have hw : wordOk w := hok w (by simp)
    have hexp : s.data.drop s.pos = encW w ++ (encWs ws ++ rest) := by
      rw [h]
      simp [encWs, List.append_assoc]
    simp only [List.length_cons, get_boolN]
    rw [get_int_enc s w _ hexp hw]
    dsimp only
    have hnext : s.data.drop (s.pos + 4) = encWs ws ++ rest := by
      have := drop_shift s.data s.pos (encW w) _ hexp
      rwa [encW_length] at this
    rw [ih { s with pos := s.pos + 4 } rest hnext (fun x hx => hok x (by simp [hx]))]
    dsimp only
    have hdec : (decide (toSigned w ≠ 0)) = (decide (w ≠ 0)) :=
      decide_eq_decide.mpr (toSigned_ne_zero w hw)
    rw [hdec]
    have hlen : s.pos + 4 + 4 * ws.length = s.pos + 4 * (ws.length + 1) := by omega
    rw [hlen]
    rfl

theorem paramsFilter_eq (ls : List (List Nat)) :
    ∀ (us : List (List Nat)) (fs : List Bool),
      paramsFilter ls us fs =
        ((ls.zip us).zip fs).filterMap (fun p => if p.2 then some p.1 else none) := by
  induction ls with
  | nil => intro us fs; cases us <;> cases fs <;> rfl
  | cons l ls ih =>
    intro us fs
    cases us with
    | nil => rfl
    | cons u us =>
      cases fs with
      | nil => rfl
      | cons f fs =>
        simp only [paramsFilter, List.zip_cons_cons, List.filterMap_cons]
        cases f with
        | false => simpa using ih us fs
        | true => simpa using ih us fs

theorem wordOk_of_cntOk (n : Nat) (h : cntOk n) : wordOk n := by
  unfold cntOk at h
  unfold wordOk
  omega

theorem get_str_enc (s : PFile) (b : List Nat) (rest : List Nat)
    (h : s.data.drop s.pos = encStr b ++ rest) (hb : strOk b) :
    get_str s = .ok ((b, false), { s with pos := s.pos + (8 + pad4 b.length) }) := by
  have hexp : s.data.drop s.pos =
      encW b.length ++ (encW b.length ++
        (b ++ (List.replicate (pad4 b.length - b.length) 0 ++ rest))) := by
    rw [h]
    simp [encStr, List.append_assoc]
  have hbw : wordOk b.length := wordOk_of_cntOk _ hb
  have htail : pad4 b.length ≤
      (b ++ (List.replicate (pad4 b.length - b.length) 0 ++ rest)).length := by
    simp only [List.length_append, List.length_replicate]
    have := pad4_ge b.length
    omega
  rw [get_str_spec s b.length b.length _ hexp hb hbw htail]
  have htake : (b ++ (List.replicate (pad4 b.length - b.length) 0 ++ rest)).take b.length = b := by
    rw [List.take_append_of_le_length (le_refl _), List.take_length]
  rw [htake]
  simp

set_option maxHeartbeats 2000000 in
theorem get_header_mov_enc (M : MovSpec) (hwf : M.WF) :
    get_header { data := encodeMov M, pos := 0 } =
      (match (if ((M.flags.length : Nat) : Int) = 8 then Except.ok movieLabels
              else if ((M.flags.length : Nat) : Int) = 7 then Except.ok movieLabels.dropLast
              else if ((M.flags.length : Nat) : Int) = 11 then
                Except.ok (movieLabels ++ xiyizi)
              else Except.error (Err.notImplementedParams ((M.flags.length : Nat) : Int),
                { data := encodeMov M, pos := movEndPos M }) :
         Except (Err × PFile) (List (List Nat))) with
       | .error e => .error e
       | .ok labels =>
         .ok ({ dump_type := 6, dversion := (M.dversion : Int), title := M.title,
                revision := M.revision, geometry := (M.geometry : Int),
                sflagsx := (M.sflagsx : Int), sflagsy := (M.sflagsy : Int),
                sflagsz := (M.sflagsz : Int),
                params := paramsFilter labels M.units
                  (M.flags.map (fun w => decide (w ≠ 0))) },
              { data := encodeMov M, pos := movEndPos M })) := by
  obtain ⟨hdv, ht, hr, hg, hfx, hfy, hfz, hnf, hflw, huf, hus⟩ := hwf
  have h0 : ({ data := encodeMov M, pos := 0 } : PFile).data.drop
      ({ data := encodeMov M, pos := 0 } : PFile).pos =
      encW 6 ++ (encW M.dversion ++ (encStr M.title ++ (encStr M.revision ++
        (encW M.geometry ++ (encW M.sflagsx ++ (encW M.sflagsy ++ (encW M.sflagsz ++
          (encW M.flags.length ++ (encWs M.flags ++ encStrs M.units))))))))) := by
    simp [encodeMov, List.append_assoc]
  have h1 := drop_shift _ _ _ _ h0
  rw [encW_length] at h1
  have h2 := drop_shift _ _ _ _ h1
  rw [encW_length] at h2
  have h3 := drop_shift _ _ _ _ h2
  rw [encStr_length] at h3
  have h4 := drop_shift _ _ _ _ h3
  rw [encStr_length] at h4
  have h5 := drop_shift _ _ _ _ h4
  rw [encW_length] at h5
  have h6 := drop_shift _ _ _ _ h5
  rw [encW_length] at h6
  have h7 := drop_shift _ _ _ _ h6
  rw [encW_length] at h7
  have h8 := drop_shift _ _ _ _ h7
  rw [encW_length] at h8
  have h9 := drop_shift _ _ _ _ h8
  rw [encW_length] at h9
  have h10 := drop_shift _ _ _ _ h9
  rw [encWs_length] at h10
  unfold get_header
  rw [get_int_enc _ 6 _ h0 (by decide)]
  dsimp only
  rw [get_int_enc _ M.dversion _ h1 (wordOk_of_cntOk _ hdv)]
  dsimp only
  rw [get_str_enc _ M.title _ h2 ht]
  dsimp only
  rw [get_str_enc _ M.revision _ h3 hr]
  dsimp only
  rw [show toSigned 6 = (6 : Int) from by decide]
  rw [if_neg (by decide), if_pos (by decide)]
  rw [get_int_enc _ M.geometry _ h4 (wordOk_of_cntOk _ hg)]
  dsimp only
  rw [get_int_enc _ M.sflagsx _ h5 (wordOk_of_cntOk _ hfx)]
  dsimp only
  rw [get_int_enc _ M.sflagsy _ h6 (wordOk_of_cntOk _ hfy)]
  dsimp only
  rw [get_int_enc _ M.sflagsz _ h7 (wordOk_of_cntOk _ hfz)]
  dsimp only
  rw [get_int_enc _ M.flags.length _ h8 (wordOk_of_cntOk _ hnf)]
  dsimp only
  rw [toSigned_ofNat M.flags.length hnf]
  rw [Int.toNat_natCast]
  rw [get_boolN_enc M.flags _ _ h9 hflw]
  dsimp only
  rw [show encStrs M.units = encStrs M.units ++ [] from (List.append_nil _).symm] at h10
  rw [get_strN_enc M.units M.flags.length _ _ huf h10 hus]
  dsimp only
  rw [toSigned_ofNat M.dversion hdv, toSigned_ofNat M.geometry hg,
      toSigned_ofNat M.sflagsx hfx, toSigned_ofNat M.sflagsy hfy,
      toSigned_ofNat M.sflagsz hfz]
  rfl

/-- C6: for a movie header (dump_type 6) the decoder reads the param count
n, then n boolean enable flags followed by n units; the label vocabulary
is fixed — q,x,y,z,ux,uy,uz,E for n = 8, the same without E for n = 7,
with xi,yi,zi appended for n = 11; any n outside {7,8,11} is a decode
failure (NotImplementedError); and the params list is exactly the
(label, unit) pairs whose flag is enabled, in vocabulary order. -/
theorem movie_header_params_spec (M : MovSpec) (hwf : M.WF) :
    ((M.flags.length = 7 ∨ M.flags.length = 8 ∨ M.flags.length = 11) →
      ∃ hdr s1, get_header { data := encodeMov M, pos := 0 } = .ok (hdr, s1) ∧
        hdr.dump_type = 6 ∧
        hdr.params = enabledParams
          (if M.flags.length = 8 then movieLabels
           else if M.flags.length = 7 then movieLabels.dropLast
           else movieLabels ++ xiyizi) M.units M.flags) ∧
    (M.flags.length ≠ 7 → M.flags.length ≠ 8 → M.flags.length ≠ 11 →
      get_header { data := encodeMov M, pos := 0 } =
        .error (.notImplementedParams (M.flags.length : Int),
                { data := encodeMov M, pos := movEndPos M })) := by
  have hmain := get_header_mov_enc M hwf
  constructor
  · intro hcase
    rcases hcase with h7 | h8 | h11
    · rw [h7] at hmain
      rw [if_neg (by decide), if_pos (by decide)] at hmain
      dsimp only at hmain
      refine ⟨_, _, hmain, rfl, ?_⟩
      rw [h7]
      rw [if_neg (by decide), if_pos rfl]
      unfold enabledParams
      rw [paramsFilter_eq]
    · rw [h8] at hmain
      rw [if_pos (by decide)] at hmain
      dsimp only at hmain
      refine ⟨_, _, hmain, rfl, ?_⟩
      rw [h8]
      rw [if_pos rfl]
      unfold enabledParams
      rw [paramsFilter_eq]
    · rw [h11] at hmain
      rw [if_neg (by decide), if_neg (by decide), if_pos (by decide)] at hmain
      dsimp only at hmain
      refine ⟨_, _, hmain, rfl, ?_⟩
      rw [h11]
      rw [if_neg (by decide), if_neg (by decide)]
      unfold enabledParams
      rw [paramsFilter_eq]
  · intro h7 h8 h11
    rw [if_neg (fun hc => h8 (by exact_mod_cast hc)),
        if_neg (fun hc => h7 (by exact_mod_cast hc)),
        if_neg (fun hc => h11 (by exact_mod_cast hc))] at hmain
    dsimp only at hmain
    exact hmain

/-- Witness for movie_header_params_spec: an 8-param header with flags
enabling q, x, y, E, and a 9-param header that is rejected. -/
theorem movie_header_params_spec_witness :
    (∃ hdr s1, get_header { data := encodeMov movM8, pos := 0 } = .ok (hdr, s1) ∧
        hdr.dump_type = 6 ∧
        hdr.params = enabledParams
          (if movM8.flags.length = 8 then movieLabels
           else if movM8.flags.length = 7 then movieLabels.dropLast
           else movieLabels ++ xiyizi) movM8.units movM8.flags) ∧
    get_header { data := encodeMov movM9, pos := 0 } =
      .error (.notImplementedParams (movM9.flags.length : Int),
              { data := encodeMov movM9, pos := movEndPos movM9 }) := by
  constructor
  · exact (movie_header_params_spec movM8 (by decide)).1 (by decide)
  · exact (movie_header_params_spec movM9 (by decide)).2 (by decide) (by decide) (by decide)

set_option maxHeartbeats 2000000 in
theorem get_header_flds_enc (F : FldsSpec) (hwf : F.WF) :
    get_header { data := encodeFlds F, pos := 0 } =
      .ok ({ dump_type := (F.dumpType : Int), dversion := (F.dversion : Int),
             title := F.title, revision := F.revision, timestamp := F.timestamp,
             geometry := (F.geometry : Int), domains := (F.doms.length : Int),
             quantitiesIter := (F.quants.map QSpec.name).zip (F.quants.map QSpec.unit) },
           { data := encodeFlds F, pos := fldsHdrEnd F }) := by
  obtain ⟨hd23, hdv, ht, hr, hts, hg, hdl, hql, hq, hds⟩ := hwf
  have hdtc : cntOk F.dumpType := by
    unfold cntOk
    rcases hd23 with h | h <;> omega
  have h0 : ({ data := encodeFlds F, pos := 0 } : PFile).data.drop
      ({ data := encodeFlds F, pos := 0 } : PFile).pos =
      encW F.dumpType ++ (encW F.dversion ++ (encStr F.title ++ (encStr F.revision ++
        (encW F.timestamp ++ (encW F.geometry ++ (encW F.doms.length ++
          (encW F.quants.length ++ (encStrs (F.quants.map QSpec.name) ++
            (encStrs (F.quants.map QSpec.unit) ++ encodeDoms F.doms))))))))) := by
    simp [encodeFlds, encodeFldsHeader, List.append_assoc]
  have h1 := drop_shift _ _ _ _ h0
  rw [encW_length] at h1
  have h2 := drop_shift _ _ _ _ h1
  rw [encW_length] at h2
  have h3 := drop_shift _ _ _ _ h2
  rw [encStr_length] at h3
  have h4 := drop_shift _ _ _ _ h3
  rw [encStr_length] at h4
  have h5 := drop_shift _ _ _ _ h4
  rw [encW_length] at h5
  have h6 := drop_shift _ _ _ _ h5
  rw [encW_length] at h6
  have h7 := drop_shift _ _ _ _ h6
  rw [encW_length] at h7
  have h8 := drop_shift _ _ _ _ h7
  rw [encW_length] at h8
  have h9 := drop_shift _ _ _ _ h8
  unfold get_header
  rw [get_int_enc _ F.dumpType _ h0 (wordOk_of_cntOk _ hdtc)]
  dsimp only
  rw [get_int_enc _ F.dversion _ h1 (wordOk_of_cntOk _ hdv)]
  dsimp only
  rw [get_str_enc _ F.title _ h2 ht]
  dsimp only
  rw [get_str_enc _ F.revision _ h3 hr]
  dsimp only
  rw [toSigned_ofNat F.dumpType hdtc]
  have hcond : ((F.dumpType : Int) = 2 ∨ (F.dumpType : Int) = 3) := by
    rcases hd23 with h | h
    · left
      rw [h]
      decide
    · right
      rw [h]
      decide
  rw [if_pos hcond]
  rw [get_float1_enc _ F.timestamp _ h4 hts]
  dsimp only
  rw [get_int_enc _ F.geometry _ h5 (wordOk_of_cntOk _ hg)]
  dsimp only
  rw [get_int_enc _ F.doms.length _ h6 (wordOk_of_cntOk _ hdl)]
  dsimp only
  rw [get_int_enc _ F.quants.length _ h7 (wordOk_of_cntOk _ hql)]
  dsimp only
  rw [toSigned_ofNat F.quants.length hql, Int.toNat_natCast]
  have hname : ∀ b ∈ F.quants.map QSpec.name, strOk b := by
    intro b hb
    obtain ⟨q, hqm, hrfl⟩ := List.mem_map.mp hb
    rw [← hrfl]
    exact (hq q hqm).1
  have hunit : ∀ b ∈ F.quants.map QSpec.unit, strOk b := by
    intro b hb
    obtain ⟨q, hqm, hrfl⟩ := List.mem_map.mp hb
    rw [← hrfl]
    exact (hq q hqm).2
  rw [get_strN_enc (F.quants.map QSpec.name) F.quants.length _ _
      (List.length_map _ _) h8 hname]
  dsimp only
  rw [get_strN_enc (F.quants.map QSpec.unit) F.quants.length _ _
      (List.length_map _ _) h9 hunit]
  dsimp only
  rw [toSigned_ofNat F.dversion hdv, toSigned_ofNat F.geometry hg,
      toSigned_ofNat F.doms.length hdl]
  rfl

theorem encPayloads_length_cons (p : List Nat) (ps : List (List Nat)) :
    (encPayloads (p :: ps)).length = 4 * p.length + (encPayloads ps).length := by
  simp [encPayloads, encWs_length]

theorem quantLoop_enc (fl : List (List Nat)) (size nI nJ nK : Nat) :
    ∀ (qs ps : List (List Nat)) (s : PFile) (rest : List Nat),
      qs.length = ps.length →
      (∀ p ∈ ps, p.length = nI * nJ * nK * size ∧ ∀ w ∈ p, wordOk w) →
      s.data.drop s.pos = encPayloads ps ++ rest →
      ∃ es, quantLoop fl size ((nI : Int) * (nJ : Int) * (nK : Int)) qs s =
        .ok (es, { s with pos := s.pos + (encPayloads ps).length }) := by
  intro qs
  induction qs with
  | nil =>
    intro ps s rest hlen hok hdrop
    have hps : ps = [] := by
      cases ps with
      | nil => rfl
      | cons a as => simp at hlen
    subst hps
    refine ⟨[], ?_⟩
    simp [quantLoop, encPayloads]
  | cons q qs ih =>
    intro ps s rest hlen hok hdrop
    cases ps with
    | nil => simp at hlen
    | cons p ps =>
      obtain ⟨hpl, hpw⟩ := hok p (by simp)
      have hdrop1 : s.data.drop s.pos = encWs p ++ (encPayloads ps ++ rest) := by
        rw [hdrop]
        simp [encPayloads, List.append_assoc]
      have hnext : s.data.drop (s.pos + 4 * p.length) = encPayloads ps ++ rest := by
        have := drop_shift _ _ _ _ hdrop1
        rwa [encWs_length] at this
      have hlen2 : qs.length = ps.length := by simpa using hlen
      have hcast : ((nI : Int) * (nJ : Int) * (nK : Int)) * (size : Int) =
          ((p.length : Nat) : Int) := by
        rw [hpl]
        push_cast
        ring
      simp only [quantLoop]
      by_cases hmem : q ∈ fl
      · rw [if_neg (by simp [hmem])]
        rw [hcast]
        rw [get_floatN_enc s p (encPayloads ps ++ rest) hdrop1 hpw]
        dsimp only
        rw [if_pos (Or.inl rfl)]
        obtain ⟨es, hes⟩ := ih ps { s with pos := s.pos + 4 * p.length } rest hlen2
          (fun x hx => hok x (by simp [hx])) hnext
        rw [hes]
        dsimp only
        refine ⟨(if size = 1 then [(q, p)]
                 else [(q ++ [120], chan size 0 p), (q ++ [121], chan size 1 p),
                       (q ++ [122], chan size 2 p)]) ++ es, ?_⟩
        rw [encPayloads_length_cons]
        rw [show s.pos + 4 * p.length + (encPayloads ps).length =
            s.pos + (4 * p.length + (encPayloads ps).length) from by omega]
      · rw [if_pos (by simp [hmem])]
        unfold seekRel
        have hposI : ((s.pos : Nat) : Int) +
            (nI : Int) * (nJ : Int) * (nK : Int) * 4 * (size : Int) =
            ((s.pos + 4 * p.length : Nat) : Int) := by
          rw [hpl]
          push_cast
          ring
        rw [if_neg (by rw [hposI]; omega)]
        dsimp only
        rw [hposI, Int.toNat_natCast]
        obtain ⟨es, hes⟩ := ih ps { s with pos := s.pos + 4 * p.length } rest hlen2
          (fun x hx => hok x (by simp [hx])) hnext
        rw [hes]
        refine ⟨es, ?_⟩
        rw [encPayloads_length_cons]
        rw [show s.pos + 4 * p.length + (encPayloads ps).length =
            s.pos + (4 * p.length + (encPayloads ps).length) from by omega]

theorem encodeDom_length (d : DomSpec) : (encodeDom d).length =
    24 + 4 * d.xgv.length + 4 * d.ygv.length + 4 * d.zgv.length +
      (encPayloads d.qdata).length := by
  simp only [encodeDom, List.length_append, encW_length, encWs_length]
  omega

set_option maxHeartbeats 2000000 in
theorem domLoop_enc (fl : List (List Nat)) (size : Nat) (qs : List (List Nat)) :
    ∀ (ds : List DomSpec) (s : PFile) (rest : List Nat),
      (∀ d ∈ ds, DomSpec.WF size qs.length d) →
      s.data.drop s.pos = encodeDoms ds ++ rest →
      ∃ dout, domLoop fl size qs ds.length s =
        .ok (dout, { s with pos := s.pos + (encodeDoms ds).length }) := by
  intro ds
  induction ds with
  | nil =>
    intro s rest hwf hdrop
    refine ⟨[], ?_⟩
    simp [domLoop, encodeDoms]
  | cons d ds ih =>
    intro s rest hwf hdrop
    obtain ⟨hwi, hwj, hwk, hci, hcj, hck, hxw, hyw, hzw, hqlen, hqd⟩ := hwf d (by simp)
    have h0 : s.data.drop s.pos =
        encWs [d.iR, d.jR, d.kR] ++ (encW d.xgv.length ++ (encWs d.xgv ++
          (encW d.ygv.length ++ (encWs d.ygv ++ (encW d.zgv.length ++ (encWs d.zgv ++
            (encPayloads d.qdata ++ (encodeDoms ds ++ rest)))))))) := by
      rw [hdrop]
      simp [encodeDoms, encodeDom, encWs, List.append_assoc]
    have h1 := drop_shift _ _ _ _ h0
    rw [show (encWs [d.iR, d.jR, d.kR]).length = 4 * 3 from by simp [encWs_length]] at h1
    have h2 := drop_shift _ _ _ _ h1
    rw [encW_length] at h2
    have h3 := drop_shift _ _ _ _ h2
    rw [encWs_length] at h3
    have h4 := drop_shift _ _ _ _ h3
    rw [encW_length] at h4
    have h5 := drop_shift _ _ _ _ h4
    rw [encWs_length] at h5
    have h6 := drop_shift _ _ _ _ h5
    rw [encW_length] at h6
    have h7 := drop_shift _ _ _ _ h6
    rw [encWs_length] at h7
    simp only [List.length_cons, domLoop]
    rw [get_intN_enc s [d.iR, d.jR, d.kR] _ 3 h0
        (by intro w hw
            simp only [List.mem_cons, List.not_mem_nil, or_false] at hw
            rcases hw with rfl | rfl | rfl
            · exact hwi
            · exact hwj
            · exact hwk) rfl]
    dsimp only
    rw [get_int_enc _ d.xgv.length _ h1 (wordOk_of_cntOk _ hci)]
    dsimp only
    rw [toSigned_ofNat d.xgv.length hci]
    rw [get_floatN_enc _ d.xgv _ h2 hxw]
    dsimp only
    rw [get_int_enc _ d.ygv.length _ h3 (wordOk_of_cntOk _ hcj)]
    dsimp only
    rw [toSigned_ofNat d.ygv.length hcj]
    rw [get_floatN_enc _ d.ygv _ h4 hyw]
    dsimp only
    rw [get_int_enc _ d.zgv.length _ h5 (wordOk_of_cntOk _ hck)]
    dsimp only
    rw [toSigned_ofNat d.zgv.length hck]
    rw [get_floatN_enc _ d.zgv _ h6 hzw]
    dsimp only
    obtain ⟨es, hes⟩ := quantLoop_enc fl size d.xgv.length d.ygv.length d.zgv.length
      qs d.qdata
      { data := s.data,
        pos := s.pos + 4 * 3 + 4 + 4 * d.xgv.length + 4 + 4 * d.ygv.length + 4 +
          4 * d.zgv.length }
      (encodeDoms ds ++ rest) hqlen.symm hqd h7
    rw [hes]
    dsimp only
    have h8 := drop_shift _ _ _ _ h7
    obtain ⟨dout, hdo⟩ := ih
      { data := s.data,
        pos := s.pos + 4 * 3 + 4 + 4 * d.xgv.length + 4 + 4 * d.ygv.length + 4 +
          4 * d.zgv.length + (encPayloads d.qdata).length }
      rest (fun x hx => hwf x (by simp [hx])) h8
    rw [hdo]
    dsimp only
    refine ⟨{ xgv := d.xgv, ygv := d.ygv, zgv := d.zgv, entries := es } :: dout, ?_⟩
    rw [show s.pos + 4 * 3 + 4 + 4 * d.xgv.length + 4 + 4 * d.ygv.length + 4 +
        4 * d.zgv.length + (encPayloads d.qdata).length + (encodeDoms ds).length =
        s.pos + (encodeDoms (d :: ds)).length from by
      simp only [encodeDoms, List.length_append, encodeDom_length]
      omega]

theorem contains_of_mem (l : List (List Nat)) (x : List Nat) (h : x ∈ l) :
    l.contains x = true := List.elem_eq_true_of_mem h

theorem fldsHdrEnd_eq (F : FldsSpec) : fldsHdrEnd F = (encodeFldsHeader F).length := by
  simp only [fldsHdrEnd, encodeFldsHeader, List.length_append, encW_length, encStr_length]

set_option maxHeartbeats 4000000 in
/-- C1: on a well-formed fields/scalars stream, read_flds consumes the whole
stream no matter which valid subset of quantities is requested (omitted,
empty, or any sub-list of the declared names): the skip-seek path and
the decode path advance the cursor by exactly the same
nI*nJ*nK*4*component_count bytes per quantity, so the final cursor is
always the full stream length. -/
theorem read_flds_skip_decode_same_consumption (F : FldsSpec) (hwf : F.WF)
    (fl : Option (List (List Nat))) (hfl : ReqValid fl F) :
    ∃ doms, read_flds { data := encodeFlds F, pos := 0 } fl =
      .ok (doms,
           { dump_type := (F.dumpType : Int), dversion := (F.dversion : Int),
             title := F.title, revision := F.revision, timestamp := F.timestamp,
             geometry := (F.geometry : Int), domains := (F.doms.length : Int),
             quantitiesIter := [] },
           { data := encodeFlds F, pos := (encodeFlds F).length }) := by
  have hhdr := get_header_flds_enc F hwf
  obtain ⟨hd23, hdv, ht, hr, hts, hg, hdl, hql, hq, hds⟩ := hwf
  have hqs : ((F.quants.map QSpec.name).zip (F.quants.map QSpec.unit)).map Prod.fst =
      F.quants.map QSpec.name :=
    List.map_fst_zip _ _ (by simp)
  have hsome : ∃ sz : Nat, ((if (F.dumpType : Int) = 2 then some 3
      else if (F.dumpType : Int) = 3 then some 1 else none : Option Nat) = some sz) ∧
      (∀ d ∈ F.doms, DomSpec.WF sz F.quants.length d) := by
    rcases hd23 with h | h
    · refine ⟨3, ?_, ?_⟩
      · rw [h]
        decide
      · intro d hd
        have hx := hds d hd
        unfold FldsSpec.size at hx
        rw [h] at hx
        simpa using hx
    · refine ⟨1, ?_, ?_⟩
      · rw [h]
        decide
      · intro d hd
        have hx := hds d hd
        unfold FldsSpec.size at hx
        rw [h] at hx
        simpa using hx
  obtain ⟨sz, hmatch, hds'⟩ := hsome
  have hds2 : ∀ d ∈ F.doms, DomSpec.WF sz (F.quants.map QSpec.name).length d := by
    intro d hd
    rw [List.length_map]
    exact hds' d hd
  have hlenH : fldsHdrEnd F = (encodeFldsHeader F).length := fldsHdrEnd_eq F
  have hdomdrop : ({ data := encodeFlds F, pos := fldsHdrEnd F } : PFile).data.drop
      ({ data := encodeFlds F, pos := fldsHdrEnd F } : PFile).pos =
      encodeDoms F.doms ++ [] := by
    simp only
    rw [List.append_nil, hlenH]
    show (encodeFlds F).drop (encodeFldsHeader F).length = encodeDoms F.doms
    unfold encodeFlds
    exact List.drop_left _ _
  have hfin : fldsHdrEnd F + (encodeDoms F.doms).length = (encodeFlds F).length := by
    rw [hlenH]
    simp [encodeFlds]
  unfold read_flds
  rw [hhdr]
  dsimp only
  rw [hmatch]
  dsimp only
  cases fl with
  | none =>
    rw [if_pos (show pyFalsy none = true from rfl)]
    dsimp only
    rw [hqs, Int.toNat_natCast]
    obtain ⟨dout, hdo⟩ := domLoop_enc (F.quants.map QSpec.name) sz (F.quants.map QSpec.name)
      F.doms { data := encodeFlds F, pos := fldsHdrEnd F } [] hds2 hdomdrop
    rw [hdo]
    dsimp only
    refine ⟨dout, ?_⟩
    rw [hfin]
  | some l =>
    cases l with
    | nil =>
      rw [if_pos (show pyFalsy (some []) = true from rfl)]
      dsimp only
      rw [hqs, Int.toNat_natCast]
      obtain ⟨dout, hdo⟩ := domLoop_enc (F.quants.map QSpec.name) sz (F.quants.map QSpec.name)
        F.doms { data := encodeFlds F, pos := fldsHdrEnd F } [] hds2 hdomdrop
      rw [hdo]
      dsimp only
      refine ⟨dout, ?_⟩
      rw [hfin]
    | cons x xs =>
      rw [if_neg (by simp [pyFalsy])]
      dsimp only [Option.getD]
      have hmem : ∀ y ∈ x :: xs, y ∈ F.quants.map QSpec.name := hfl
      have hfind : (x :: xs).find?
          (fun f => !((((F.quants.map QSpec.name).zip
            (F.quants.map QSpec.unit)).map Prod.fst).contains f)) = none := by
        apply List.find?_eq_none.mpr
        intro y hy
        rw [hqs]
        rw [contains_of_mem _ _ (hmem y hy)]
        simp
      rw [hfind]
      dsimp only
      rw [hqs, Int.toNat_natCast]
      obtain ⟨dout, hdo⟩ := domLoop_enc (x :: xs) sz (F.quants.map QSpec.name)
        F.doms { data := encodeFlds F, pos := fldsHdrEnd F } [] hds2 hdomdrop
      rw [hdo]
      dsimp only
      refine ⟨dout, ?_⟩
      rw [hfin]

/-- Witness for read_flds_skip_decode_same_consumption: requesting only the
second of two declared quantities still consumes the whole stream. -/
theorem read_flds_skip_decode_same_consumption_witness :
    ∃ doms, read_flds { data := encodeFlds fldsW, pos := 0 } (some [[66]]) =
      .ok (doms,
           { dump_type := 2, dversion := 1, title := [84], revision := [82],
             timestamp := 5, geometry := 1, domains := 1, quantitiesIter := [] },
           { data := encodeFlds fldsW, pos := (encodeFlds fldsW).length }) :=
  read_flds_skip_decode_same_consumption fldsW (by decide) (some [[66]]) (by decide)

/-- Witness for read_flds_invalid_request: requesting the absent name "R"
(byte 82) against the one-quantity stream of fldsC4 fails, naming the
missing quantity and the available set, with the cursor still at the
header end (no payload consumed). -/
theorem read_flds_invalid_request_witness :
    read_flds { data := encodeFlds fldsC4, pos := 0 } (some [[82]]) =
      .error (.invalidField [82] [[81]], { data := encodeFlds fldsC4, pos := 64 }) :=
  read_flds_invalid_request { data := encodeFlds fldsC4, pos := 0 }
    { data := encodeFlds fldsC4, pos := 64 }
    { dump_type := 2, dversion := 1, title := [], revision := [], timestamp := 0,
      geometry := 0, domains := 0, quantitiesIter := [([81], [117])] }
    [[82]] [82] rfl (Or.inl rfl) (by decide)

theorem replicate_getD_zero (n i : Nat) : (List.replicate n (0 : Nat)).getD i 0 = 0 := by
  induction n generalizing i with
  | zero => simp [List.getD]
  | succ m ih =>
    cases i with
    | zero => simp [List.replicate]
    | succ j =>
      simp only [List.replicate, List.getD_cons_succ]
      exact ih j

theorem writeSlot_shared (n i : Nat) (k : String) (v : GVal) (d : PyDict) :
    writeSlot { heap := [d], slots := List.replicate n 0 } i k v =
      { heap := [dictSet d k v], slots := List.replicate n 0 } := by
  unfold writeSlot
  simp [replicate_getD_zero]

theorem readSlot_shared (n i : Nat) (k : String) (d : PyDict) :
    readSlot { heap := [d], slots := List.replicate n 0 } i k = dictGet d k := by
  unfold readSlot
  simp [replicate_getD_zero]

theorem dictGet_set_self (d : PyDict) (k : String) (v : GVal) :
    dictGet (dictSet d k v) k = v := by
  induction d with
  | nil => simp [dictSet, dictGet]
  | cons p t ih =>
    obtain ⟨k1, v1⟩ := p
    by_cases h : k1 = k
    · simp [dictSet, dictGet, h]
    · simp [dictSet, dictGet, h, ih]

theorem dictSet_dictSet_same (d : PyDict) (k : String) (v w : GVal) :
    dictSet (dictSet d k v) k w = dictSet d k w := by
  induction d with
  | nil => simp [dictSet]
  | cons p t ih =>
    obtain ⟨k1, v1⟩ := p
    by_cases h : k1 = k
    · simp [dictSet, h]
    · simp [dictSet, h, ih]

theorem regChain_nil (r : RegRec) :
    dictSet (dictSet (dictSet (dictSet (dictSet (dictSet (dictSet (dictSet (dictSet ([] : PyDict)
      "nI" (.i r.nI)) "nJ" (.i r.nJ)) "nK" (.i r.nK)) "xmin" (.s r.x0)) "xmax" (.s r.x1))
      "ymin" (.s r.y0)) "ymax" (.s r.y1)) "zmin" (.s r.z0)) "zmax" (.s r.z1) = regDictOf r := by
  simp [dictSet, regDictOf]

theorem regChain_canon (r0 r : RegRec) :
    dictSet (dictSet (dictSet (dictSet (dictSet (dictSet (dictSet (dictSet (dictSet (regDictOf r0)
      "nI" (.i r.nI)) "nJ" (.i r.nJ)) "nK" (.i r.nK)) "xmin" (.s r.x0)) "xmax" (.s r.x1))
      "ymin" (.s r.y0)) "ymax" (.s r.y1)) "zmin" (.s r.z0)) "zmax" (.s r.z1) = regDictOf r := by
  simp [dictSet, regDictOf]

theorem regLoop_spec (n : Nat) :
    ∀ (recs : List RegRec) (i : Nat) (d : PyDict) (tail : List String),
      (∀ r ∈ recs, r.WF) →
      (d = [] ∨ ∃ r0, d = regDictOf r0) →
      regLoop { heap := [d], slots := List.replicate n 0 } i recs.length
          (regLines recs ++ tail) =
        some ({ heap := [lastDict d (recs.map regDictOf)],
                slots := List.replicate n 0 }, tail) := by
  intro recs
  induction recs with
  | nil =>
    intro i d tail hwf hd
    simp [regLoop, regLines, lastDict]
  | cons r rs ih =>
    intro i d tail hwf hd
    obtain ⟨h1, h2⟩ := hwf r (by simp)
    simp only [List.length_cons, regLines, List.cons_append, regLoop]
    unfold regBody
    dsimp only [pyReadline]
    rw [h1]
    dsimp only
    rw [h2]
    dsimp only
    simp only [writeSlot_shared]
    rcases hd with rfl | ⟨r0, rfl⟩
    · rw [regChain_nil]
      rw [ih (i + 1) (regDictOf r) tail (fun x hx => hwf x (by simp [hx])) (Or.inr ⟨r, rfl⟩)]
      simp only [List.map_cons, lastDict]
    · rw [regChain_canon]
      rw [ih (i + 1) (regDictOf r) tail (fun x hx => hwf x (by simp [hx])) (Or.inr ⟨r, rfl⟩)]
      simp only [List.map_cons, lastDict]

theorem read_regions_alias (l1 l2 l3 l4 : String) (geo dim nreg : Int)
    (recs : List RegRec) (tail : List String)
    (hg : pyInt l2 = some geo) (hd : pyInt l3 = some dim) (hn : pyInt l4 = some nreg)
    (hcnt : recs.length = nreg.toNat) (hwf : ∀ r ∈ recs, r.WF) :
    read_regions (l1 :: l2 :: l3 :: l4 :: (regLines recs ++ tail)) =
      some { title := pyStrip l1, geometry := geo, dimension := dim, nregions := nreg,
             alloc := { heap := [lastDict [] (recs.map regDictOf)],
                        slots := List.replicate nreg.toNat 0 } } := by
  unfold read_regions
  dsimp only [pyReadline]
  rw [hg]
  dsimp only
  rw [hd]
  dsimp only
  rw [hn]
  dsimp only
  rw [← hcnt]
  unfold allocShared
  rw [regLoop_spec recs.length recs 0 [] tail hwf (Or.inl rfl)]

theorem volChain_nil (r : VolRec) :
    dictSet (dictSet (dictSet (dictSet (dictSet (dictSet (dictSet ([] : PyDict)
      "x0" (.s r.x0)) "x1" (.s r.x1)) "y0" (.s r.y0)) "y1" (.s r.y1)) "z0" (.s r.z0))
      "z1" (.s r.z1)) "type" (.i r.tv) = volDictOf r := by
  simp [dictSet, volDictOf]

theorem volChain_canon (r0 r : VolRec) :
    dictSet (dictSet (dictSet (dictSet (dictSet (dictSet (dictSet (volDictOf r0)
      "x0" (.s r.x0)) "x1" (.s r.x1)) "y0" (.s r.y0)) "y1" (.s r.y1)) "z0" (.s r.z0))
      "z1" (.s r.z1)) "type" (.i r.tv) = volDictOf r := by
  simp [dictSet, volDictOf]

theorem volLoop_spec (n : Nat) :
    ∀ (recs : List VolRec) (i : Nat) (d : PyDict) (tail : List String),
      (∀ r ∈ recs, r.WF) →
      (d = [] ∨ ∃ r0, d = volDictOf r0) →
      volLoop { heap := [d], slots := List.replicate n 0 } i recs.length
          (volLines recs ++ tail) =
        some ({ heap := [lastDict d (recs.map volDictOf)],
                slots := List.replicate n 0 }, tail) := by
  intro recs
  induction recs with
  | nil =>
    intro i d tail hwf hd
    simp [volLoop, volLines, lastDict]
  | cons r rs ih =>
    intro i d tail hwf hd
    obtain ⟨h1, h2⟩ := hwf r (by simp)
    simp only [List.length_cons, volLines, List.cons_append, volLoop]
    unfold volBody
    dsimp only [pyReadline]
    rw [h1]
    dsimp only
    simp only [writeSlot_shared]
    rw [h2]
    dsimp only
    rcases hd with rfl | ⟨r0, rfl⟩
    · rw [volChain_nil]
      rw [ih (i + 1) (volDictOf r) tail (fun x hx => hwf x (by simp [hx])) (Or.inr ⟨r, rfl⟩)]
      simp only [List.map_cons, lastDict]
    · rw [volChain_canon]
      rw [ih (i + 1) (volDictOf r) tail (fun x hx => hwf x (by simp [hx])) (Or.inr ⟨r, rfl⟩)]
      simp only [List.map_cons, lastDict]

theorem read_volumes_alias (l1 l2 : String) (nvol : Int)
    (recs : List VolRec) (tail : List String)
    (hn : pyInt l2 = some nvol) (hcnt : recs.length = nvol.toNat)
    (hwf : ∀ r ∈ recs, r.WF) :
    read_volumes (l1 :: l2 :: (volLines recs ++ tail)) =
      some { title := pyStrip l1, nvolumes := nvol,
             alloc := { heap := [lastDict [] (recs.map volDictOf)],
                        slots := List.replicate nvol.toNat 0 } } := by
  unfold read_volumes
  dsimp only [pyReadline]
  rw [hn]
  dsimp only
  rw [← hcnt]
  unfold allocShared
  rw [volLoop_spec recs.length recs 0 [] tail hwf (Or.inl rfl)]

theorem setSeq_full : ∀ (ts : List String) (j : Nat) (a : List String),
    a.length = j + ts.length → setSeq a j ts = a.take j ++ ts := by
  intro ts
  induction ts with
  | nil =>
    intro j a h
    simp only [setSeq, List.append_nil]
    simp only [List.length_nil] at h
    have hj : j = a.length := by omega
    rw [hj, List.take_length]
  | cons t ts ih =>
    intro j a h
    have hj : j < a.length := by
      simp only [List.length_cons] at h
      omega
    simp only [setSeq]
    rw [ih (j + 1) (a.set j t) (by simp only [List.length_set, List.length_cons] at h ⊢; omega)]
    have hset : a.set j t = a.take j ++ t :: a.drop (j + 1) := by
      rw [List.set_eq_take_append_cons_drop, if_pos hj]
    rw [hset]
    have hlen : j + 1 = (a.take j).length + 1 := by
      rw [List.length_take]
      omega
    rw [hlen, List.take_append]
    simp

theorem gvLoop_shared (key : String) (n : Nat) :
    ∀ (xs : List String) (i j : Nat) (d : PyDict) (A : List String) (tail : List String),
      gvLoop key { heap := [dictSet d key (.arr A)], slots := List.replicate n 0 } i j
          xs.length (xs ++ tail) =
        ({ heap := [dictSet d key (.arr (setSeq A j (xs.map pyStrip)))],
           slots := List.replicate n 0 }, tail) := by
  intro xs
  induction xs with
  | nil =>
    intro i j d A tail
    simp [gvLoop, setSeq]
  | cons x xs ih =>
    intro i j d A tail
    simp only [List.length_cons, List.cons_append, gvLoop]
    dsimp only [pyReadline]
    rw [readSlot_shared, dictGet_set_self]
    dsimp only
    rw [writeSlot_shared, dictSet_dictSet_same]
    rw [ih i (j + 1) d (A.set j (pyStrip x)) tail]
    simp only [List.map_cons, setSeq]

theorem gridChain_nil (r : GridRec) : gridApply [] r = gridDictOf r := by
  simp [gridApply, dictSet, gridDictOf]

theorem gridChain_canon (r0 r : GridRec) : gridApply (gridDictOf r0) r = gridDictOf r := by
  simp [gridApply, dictSet, gridDictOf]

set_option maxHeartbeats 1000000 in
theorem gridBody_shared (n : Nat) (r : GridRec) (i : Nat) (d : PyDict) (tail : List String)
    (hwf : r.WF) :
    gridBody { heap := [d], slots := List.replicate n 0 } i (gridRecLines r ++ tail) =
      some ({ heap := [gridApply d r], slots := List.replicate n 0 }, tail) := by
  obtain ⟨hidx, hnI, hnJ, hnK⟩ := hwf
  unfold gridBody
  simp only [gridRecLines, List.cons_append, List.append_assoc]
  dsimp only [pyReadline]
  rw [hidx]
  dsimp only
  rw [writeSlot_shared]
  rw [hnI]
  dsimp only
  rw [if_neg (by omega)]
  rw [writeSlot_shared, writeSlot_shared, Int.toNat_natCast]
  rw [gvLoop_shared "xgv" n r.xs i 0 _ (List.replicate r.xs.length "0.0")
      (r.nJLine :: (r.ys ++ (r.nKLine :: (r.zs ++ tail))))]
  dsimp only
  rw [setSeq_full (r.xs.map pyStrip) 0 (List.replicate r.xs.length "0.0") (by simp)]
  simp only [List.take_zero, List.nil_append]
  rw [hnJ]
  dsimp only
  rw [if_neg (by omega)]
  rw [writeSlot_shared, writeSlot_shared, Int.toNat_natCast]
  rw [gvLoop_shared "ygv" n r.ys i 0 _ (List.replicate r.ys.length "0.0")
      (r.nKLine :: (r.zs ++ tail))]
  dsimp only
  rw [setSeq_full (r.ys.map pyStrip) 0 (List.replicate r.ys.length "0.0") (by simp)]
  simp only [List.take_zero, List.nil_append]
  rw [hnK]
  dsimp only
  rw [if_neg (by omega)]
  rw [writeSlot_shared, writeSlot_shared, Int.toNat_natCast]
  rw [gvLoop_shared "zgv" n r.zs i 0 _ (List.replicate r.zs.length "0.0") tail]
  dsimp only
  rw [setSeq_full (r.zs.map pyStrip) 0 (List.replicate r.zs.length "0.0") (by simp)]
  simp only [List.take_zero, List.nil_append]
  rfl

theorem gridLoop_spec (n : Nat) :
    ∀ (recs : List GridRec) (i : Nat) (d : PyDict) (tail : List String),
      (∀ r ∈ recs, r.WF) →
      (d = [] ∨ ∃ r0, d = gridDictOf r0) →
      gridLoop { heap := [d], slots := List.replicate n 0 } i recs.length
          (gridLines recs ++ tail) =
        some ({ heap := [lastDict d (recs.map gridDictOf)],
                slots := List.replicate n 0 }, tail) := by
  intro recs
  induction recs with
  | nil =>
    intro i d tail hwf hd
    simp [gridLoop, gridLines, lastDict]
  | cons r rs ih =>
    intro i d tail hwf hd
    simp only [List.length_cons, gridLines, List.append_assoc, gridLoop]
    rw [gridBody_shared n r i d (gridLines rs ++ tail) (hwf r (by simp))]
    dsimp only
    rcases hd with rfl | ⟨r0, rfl⟩
    · rw [gridChain_nil]
      rw [ih (i + 1) (gridDictOf r) tail (fun x hx => hwf x (by simp [hx])) (Or.inr ⟨r, rfl⟩)]
      simp only [List.map_cons, lastDict]
    · rw [gridChain_canon]
      rw [ih (i + 1) (gridDictOf r) tail (fun x hx => hwf x (by simp [hx])) (Or.inr ⟨r, rfl⟩)]
      simp only [List.map_cons, lastDict]

theorem read_grid_alias (l1 l2 l3 l4 l5 l6 l7 : String) (geo dim ng : Int)
    (recs : List GridRec) (tail : List String)
    (hg : pyInt l2 = some geo) (hd : pyInt l3 = some dim) (hn : pyInt l7 = some ng)
    (hcnt : recs.length = ng.toNat) (hwf : ∀ r ∈ recs, r.WF) :
    read_grid (l1 :: l2 :: l3 :: l4 :: l5 :: l6 :: l7 :: (gridLines recs ++ tail)) =
      some { title := pyStrip l1, geometry := geo, dimension := dim,
             xunits := pyStrip l4, yunits := pyStrip l5, zunits := pyStrip l6, ngrids := ng,
             alloc := { heap := [lastDict [] (recs.map gridDictOf)],
                        slots := List.replicate ng.toNat 0 } } := by
  unfold read_grid
  dsimp only [pyReadline]
  rw [hg]
  dsimp only
  rw [hd]
  dsimp only
  rw [hn]
  dsimp only
  rw [← hcnt]
  unfold allocShared
  rw [gridLoop_spec recs.length recs 0 [] tail hwf (Or.inl rfl)]

theorem lastDict_map_last {α : Type} (f : α → PyDict) :
    ∀ (xs : List α) (x : α) (d : PyDict),
      xs.getLast? = some x → lastDict d (xs.map f) = f x := by
  intro xs
  induction xs with
  | nil => intro x d h; simp at h
  | cons y ys ih =>
    intro x d h
    cases ys with
    | nil =>
      simp only [List.getLast?_singleton, Option.some.injEq] at h
      subst h
      simp [lastDict]
    | cons z zs =>
      rw [List.getLast?_cons_cons] at h
      have h2 := ih x (f y) h
      simp only [List.map_cons, lastDict] at h2 ⊢
      exact h2

/-- C10: the text-sidecar readers read_grid, read_regions and read_volumes
pre-allocate their record list as n references to one shared dict
([OrderedDict()]*n) and write record fields into it in place, so on every
input declaring n >= 2 records all n slots of the returned list point at
the same single heap object, which holds exactly the values of the last
record parsed. -/
theorem sidecar_readers_alias_last_record :
    (∀ (l1 l2 l3 l4 : String) (geo dim nreg : Int) (recs : List RegRec)
       (tail : List String) (rl : RegRec),
       pyInt l2 = some geo → pyInt l3 = some dim → pyInt l4 = some nreg →
       recs.length = nreg.toNat → (∀ r ∈ recs, r.WF) → 2 ≤ recs.length →
       recs.getLast? = some rl →
       read_regions (l1 :: l2 :: l3 :: l4 :: (regLines recs ++ tail)) =
         some { title := pyStrip l1, geometry := geo, dimension := dim, nregions := nreg,
                alloc := { heap := [regDictOf rl],
                           slots := List.replicate nreg.toNat 0 } }) ∧
    (∀ (l1 l2 : String) (nvol : Int) (recs : List VolRec)
       (tail : List String) (vl : VolRec),
       pyInt l2 = some nvol →
       recs.length = nvol.toNat → (∀ r ∈ recs, r.WF) → 2 ≤ recs.length →
       recs.getLast? = some vl →
       read_volumes (l1 :: l2 :: (volLines recs ++ tail)) =
         some { title := pyStrip l1, nvolumes := nvol,
                alloc := { heap := [volDictOf vl],
                           slots := List.replicate nvol.toNat 0 } }) ∧
    (∀ (l1 l2 l3 l4 l5 l6 l7 : String) (geo dim ng : Int) (recs : List GridRec)
       (tail : List String) (gl : GridRec),
       pyInt l2 = some geo → pyInt l3 = some dim → pyInt l7 = some ng →
       recs.length = ng.toNat → (∀ r ∈ recs, r.WF) → 2 ≤ recs.length →
       recs.getLast? = some gl →
       read_grid (l1 :: l2 :: l3 :: l4 :: l5 :: l6 :: l7 :: (gridLines recs ++ tail)) =
         some { title := pyStrip l1, geometry := geo, dimension := dim,
                xunits := pyStrip l4, yunits := pyStrip l5, zunits := pyStrip l6, ngrids := ng,
                alloc := { heap := [gridDictOf gl],
                           slots := List.replicate ng.toNat 0 } }) := by
  refine ⟨?_, ?_, ?_⟩
  · intro l1 l2 l3 l4 geo dim nreg recs tail rl hg hd hn hcnt hwf h2 hlast
    rw [read_regions_alias l1 l2 l3 l4 geo dim nreg recs tail hg hd hn hcnt hwf]
    rw [lastDict_map_last regDictOf recs rl [] hlast]
  · intro l1 l2 nvol recs tail vl hn hcnt hwf h2 hlast
    rw [read_volumes_alias l1 l2 nvol recs tail hn hcnt hwf]
    rw [lastDict_map_last volDictOf recs vl [] hlast]
  · intro l1 l2 l3 l4 l5 l6 l7 geo dim ng recs tail gl hg hd hn hcnt hwf h2 hlast
    rw [read_grid_alias l1 l2 l3 l4 l5 l6 l7 geo dim ng recs tail hg hd hn hcnt hwf]
    rw [lastDict_map_last gridDictOf recs gl [] hlast]

theorem sidecar_readers_alias_last_record_witness :
    (read_regions ("regions" :: "1" :: "2" :: "2" :: (regLines [regW1, regW2] ++ [])) =
      some { title := "regions", geometry := 1, dimension := 2, nregions := 2,
             alloc := { heap := [regDictOf regW2],
                        slots := List.replicate (2 : Int).toNat 0 } }) ∧
    (read_volumes ("volumes" :: "2" :: (volLines [volW1, volW2] ++ [])) =
      some { title := "volumes", nvolumes := 2,
             alloc := { heap := [volDictOf volW2],
                        slots := List.replicate (2 : Int).toNat 0 } }) ∧
    (read_grid ("grid" :: "1" :: "2" :: "cm" :: "cm" :: "cm" :: "2" ::
        (gridLines [gridW1, gridW2] ++ [])) =
      some { title := "grid", geometry := 1, dimension := 2,
             xunits := "cm", yunits := "cm", zunits := "cm", ngrids := 2,
             alloc := { heap := [gridDictOf gridW2],
                        slots := List.replicate (2 : Int).toNat 0 } }) :=
  ⟨sidecar_readers_alias_last_record.1 "regions" "1" "2" "2" 1 2 2 [regW1, regW2] [] regW2
      (by decide) (by decide) (by decide) (by decide) (by decide) (by decide) rfl,
   sidecar_readers_alias_last_record.2.1 "volumes" "2" 2 [volW1, volW2] [] volW2
      (by decide) (by decide) (by decide) (by decide) rfl,
   sidecar_readers_alias_last_record.2.2 "grid" "1" "2" "cm" "cm" "cm" "2" 1 2 2
      [gridW1, gridW2] [] gridW2
      (by decide) (by decide) (by decide) (by decide) (by decide) (by decide) rfl⟩
